import Mathlib

/-!
Verification of the `connectome-grpc-common` package: a shallow embedding of
its wire codec (facet/event serializers), attachment transfer helpers, and
client session state machine, with theorems checking the specification's
claims against the embedded code.

Modelling conventions:
* JavaScript `Uint8Array` byte buffers are `List Nat`.
* The byte field produced by `TextEncoder().encode(JSON.stringify(x))` is
  modelled as the JSON text itself (a `String`): UTF-8 encode/decode is a
  bijection on well-formed strings and the code only tests emptiness, which
  coincides with string emptiness.
* Optional (possibly-`undefined`) values are `Option`.
* JavaScript records (`Record<string, T>`) are association lists in insertion
  order, matching JS object key enumeration order.
* JSON numbers are modelled as exact decimals: integer-valued numerals as
  `Int`, numerals with fraction digits as an exact decimal `m / 10^(e+1)`.
  JavaScript holds the nearest Float64 instead; the model is exact wherever
  the decimal is Float64-representable, and where a claim is decided by
  Float64 rounding itself it is modelled exactly (see the checksum).
* JavaScript strings are UTF-16 and may hold lone surrogates, which Lean
  `Char` cannot; a lone surrogate becomes U+FFFD on the UTF-8 wire and is
  modelled as such.  Surrogate pairs decode to the joined code point.
-/

namespace Connectome

/-! ## JSON values

The serializers pass `state`, `payload`, metadata values and attribute values
through `JSON.stringify` / `JSON.parse`.  `Json` is the value space, `printJson`
models `JSON.stringify`, and the fueled recursive-descent functions
`parseValue`/`parseElems`/`parseFields` model `JSON.parse`.
-/

/-- The modelled JSON value space.  A number is either an integer (`num`) or
the exact decimal `m / 10^(e+1)` (`frac m e`, carrying `e + 1` fraction
digits); every `frac` value prints as a decimal numeral and parses back to
itself, so the whole type round-trips. -/
inductive Json where
  | null : Json
  | bool (b : Bool) : Json
  | num (n : Int) : Json
  | frac (m : Int) (e : Nat) : Json
  | str (s : String) : Json
  | arr (elems : List Json) : Json
  | obj (fields : List (String × Json)) : Json

/-- Decimal digit character, `'0'`–`'9'`. -/
def digitChar (n : Nat) : Char := Char.ofNat (48 + n)

/-- Lowercase hexadecimal digit character, `'0'`–`'9'`, `'a'`–`'f'`. -/
def hexDigitChar (n : Nat) : Char :=
  if n < 10 then Char.ofNat (48 + n) else Char.ofNat (87 + n)

/-- Decimal digits, most significant first; the fuel argument only forces
termination and any value above the digit count gives the same result. -/
def natDigitsAux : Nat → Nat → List Char
  | 0, _ => []
  | fuel + 1, n =>
    if n < 10 then [digitChar n]
    else natDigitsAux fuel (n / 10) ++ [digitChar (n % 10)]

/-- Decimal digits of `n`, most significant first (JavaScript `String(n)`). -/
def natDigits (n : Nat) : List Char := natDigitsAux (n + 1) n

/-- JavaScript `String(n)` for a natural number. -/
def natToString (n : Nat) : String := String.mk (natDigits n)

/-- JSON string escaping of one character, as `JSON.stringify` performs it:
quote and backslash get a backslash escape, the named control characters get
their short escapes, remaining control characters get `\u00xx`. -/
def escapeChar (c : Char) : List Char :=
  if c = '"' then ['\\', '"']
  else if c = '\\' then ['\\', '\\']
  else if c.toNat = 8 then ['\\', 'b']
  else if c.toNat = 9 then ['\\', 't']
  else if c.toNat = 10 then ['\\', 'n']
  else if c.toNat = 12 then ['\\', 'f']
  else if c.toNat = 13 then ['\\', 'r']
  else if c.toNat < 32 then
    ['\\', 'u', '0', '0', hexDigitChar (c.toNat / 16), hexDigitChar (c.toNat % 16)]
  else [c]

def escapeString : List Char → List Char
  | [] => []
  | c :: cs => escapeChar c ++ escapeString cs

/-- A JSON string literal: opening quote, escaped body, closing quote. -/
def printString (s : String) : List Char := '"' :: escapeString s.data ++ ['"']

/-- JavaScript rendering of an integer. -/
def printInt (n : Int) : List Char :=
  if n < 0 then '-' :: natDigits n.natAbs else natDigits n.toNat

/-- Decimal digits of `n` padded with leading zeros to at least `k` digits. -/
def padDigits (k : Nat) (n : Nat) : List Char :=
  List.replicate (k - (natDigits n).length) '0' ++ natDigits n

/-- The decimal numeral `m / 10^(e+1)` written with exactly `e + 1` fraction
digits — the JSON text a `frac` value stands for. -/
def printFrac (m : Int) (e : Nat) : List Char :=
  (if m < 0 then ['-'] else []) ++
    natDigits (m.natAbs / 10 ^ (e + 1)) ++
    '.' :: padDigits (e + 1) (m.natAbs % 10 ^ (e + 1))

mutual
/-- The characters of `JSON.stringify v`. -/
def printJson : Json → List Char
  | .null => "null".data
  | .bool true => "true".data
  | .bool false => "false".data
  | .num n => printInt n
  | .frac m e => printFrac m e
  | .str s => printString s
  | .arr es => '[' :: printElems es ++ [']']
  | .obj fs => '\x7b' :: printFields fs ++ ['\x7d']
termination_by structural j => j

def printElems : List Json → List Char
  | [] => []
  | [v] => printJson v
  | v :: vs => printJson v ++ ',' :: printElems vs
termination_by structural l => l

def printFields : List (String × Json) → List Char
  | [] => []
  | [(k, v)] => printString k ++ ':' :: printJson v
  | (k, v) :: fs => printString k ++ ':' :: printJson v ++ ',' :: printFields fs
termination_by structural fs => fs
end

/-- `JSON.stringify`. -/
def jsonStringify (v : Json) : String := String.mk (printJson v)

/-! ### The parser (model of `JSON.parse`) -/

def isWsChar (c : Char) : Bool :=
  c.toNat == 32 || c.toNat == 10 || c.toNat == 13 || c.toNat == 9

def skipWs : List Char → List Char
  | [] => []
  | c :: cs => if isWsChar c then skipWs cs else c :: cs

def isDigitChar (c : Char) : Bool := 48 ≤ c.toNat && c.toNat ≤ 57

def hexVal (c : Char) : Option Nat :=
  if 48 ≤ c.toNat ∧ c.toNat ≤ 57 then some (c.toNat - 48)
  else if 97 ≤ c.toNat ∧ c.toNat ≤ 102 then some (c.toNat - 87)
  else if 65 ≤ c.toNat ∧ c.toNat ≤ 70 then some (c.toNat - 55)
  else none

def escDecode (c : Char) : Option Char :=
  if c = '"' then some '"'
  else if c = '\\' then some '\\'
  else if c = '/' then some '/'
  else if c = 'b' then some (Char.ofNat 8)
  else if c = 'f' then some (Char.ofNat 12)
  else if c = 'n' then some (Char.ofNat 10)
  else if c = 'r' then some (Char.ofNat 13)
  else if c = 't' then some (Char.ofNat 9)
  else none

/-- Parse the body of a JSON string literal into the UTF-16 code units the
JS string holds (the opening quote has been consumed): every `\uXXXX` escape
contributes its code unit, whatever it is — `JSON.parse` accepts lone and
paired surrogate escapes alike. -/
def parseStringUnits : List Char → Option (List Nat × List Char)
  | [] => none
  | c :: cs =>
    if c = '"' then some ([], cs)
    else if c = '\\' then
      match cs with
      | [] => none
      | e :: cs2 =>
        if e = 'u' then
          match cs2 with
          | h1 :: h2 :: h3 :: h4 :: cs3 =>
            match hexVal h1, hexVal h2, hexVal h3, hexVal h4 with
            | some a, some b, some c2, some d =>
              match parseStringUnits cs3 with
              | some (l, r) => some ((((a * 16 + b) * 16 + c2) * 16 + d) :: l, r)
              | none => none
            | _, _, _, _ => none
          | _ => none
        else
          match escDecode e with
          | some d =>
            match parseStringUnits cs2 with
            | some (l, r) => some (d.toNat :: l, r)
            | none => none
          | none => none
    else if c.toNat < 32 then none
    else
      match parseStringUnits cs with
      | some (l, r) => some (c.toNat :: l, r)
      | none => none
termination_by structural cs => cs

/-- UTF-16 code units to characters, as the string reaches the UTF-8 wire: a
high/low surrogate pair joins into one code point, a lone surrogate becomes
U+FFFD (its UTF-8 image); the fuel (one per unit) only forces termination. -/
def unitsToCharsAux : Nat → List Nat → List Char
  | 0, _ => []
  | _ + 1, [] => []
  | fuel + 1, u :: us =>
    if u < 55296 ∨ 57343 < u then Char.ofNat u :: unitsToCharsAux fuel us
    else if u ≤ 56319 then
      match us with
      | u2 :: us2 =>
        if 56320 ≤ u2 ∧ u2 ≤ 57343 then
          Char.ofNat (65536 + (u - 55296) * 1024 + (u2 - 56320)) ::
            unitsToCharsAux fuel us2
        else Char.ofNat 65533 :: unitsToCharsAux fuel us
      | [] => [Char.ofNat 65533]
    else Char.ofNat 65533 :: unitsToCharsAux fuel us

def unitsToChars (us : List Nat) : List Char := unitsToCharsAux us.length us

/-- Parse the body of a JSON string literal (the opening quote has been
consumed), returning the decoded characters and the input after the closing
quote. -/
def parseStringBody (cs : List Char) : Option (List Char × List Char) :=
  match parseStringUnits cs with
  | some (us, r) => some (unitsToChars us, r)
  | none => none

/-- Consume a maximal run of decimal digits, kept as characters. -/
def spanDigits : List Char → List Char × List Char
  | [] => ([], [])
  | c :: cs =>
    if isDigitChar c then
      let (ds, rest) := spanDigits cs
      (c :: ds, rest)
    else ([], c :: cs)

/-- Value of a digit run (most significant first) over an accumulator. -/
def digitsVal (l : List Char) (acc : Nat) : Nat :=
  l.foldl (fun a c => 10 * a + (c.toNat - 48)) acc

/-- The integer part of a JSON numeral: `0`, or a nonzero digit followed by
further digits — a leading zero before another digit is a syntax error, as in
`JSON.parse`. -/
def scanIntPart : List Char → Option (List Char × List Char)
  | [] => none
  | c :: cs =>
    if c = '0' then some (['0'], cs)
    else if isDigitChar c then
      match spanDigits cs with
      | (ds, rest) => some (c :: ds, rest)
    else none

/-- The optional fraction part: `.` followed by one or more digits; consumes
nothing when the input does not start with `.`; fails on `.` without a
digit. -/
def scanFracPart : List Char → Option (List Char × List Char)
  | [] => some ([], [])
  | c :: cs =>
    if c = '.' then
      match spanDigits cs with
      | ([], _) => none
      | (ds, rest) => some (ds, rest)
    else some ([], c :: cs)

/-- The optional exponent part: `e`/`E`, an optional sign, one or more
digits, returned as the signed exponent; `0` when absent. -/
def scanExpPart : List Char → Option (Int × List Char)
  | [] => some (0, [])
  | c :: cs =>
    if c = 'e' ∨ c = 'E' then
      match cs with
      | '+' :: cs2 =>
        (match spanDigits cs2 with
          | ([], _) => none
          | (ds, rest) => some ((digitsVal ds 0 : Int), rest))
      | '-' :: cs2 =>
        (match spanDigits cs2 with
          | ([], _) => none
          | (ds, rest) => some (-(digitsVal ds 0 : Int), rest))
      | cs2 =>
        (match spanDigits cs2 with
          | ([], _) => none
          | (ds, rest) => some ((digitsVal ds 0 : Int), rest))
    else some (0, c :: cs)

/-- The unsigned magnitude of a JSON numeral
(`(0 | [1-9][0-9]*) (. [0-9]+)? ([eE] [+-]? [0-9]+)?`).  The exact decimal
value is `±digits · 10^(exp − #fracDigits)`: when the net exponent is
non-negative the value is the integer `num`, otherwise the exact decimal
`frac` with `#fracDigits − exp` fraction digits. -/
def parseNumMag (neg : Bool) (cs : List Char) : Option (Json × List Char) :=
  match scanIntPart cs with
  | none => none
  | some (ip, cs2) =>
    match scanFracPart cs2 with
    | none => none
    | some (fp, cs3) =>
      match scanExpPart cs3 with
      | none => none
      | some (k, rest) =>
        let base : Int := (digitsVal (ip ++ fp) 0 : Int)
        let sbase : Int := if neg then -base else base
        let net : Int := k - (fp.length : Int)
        if 0 ≤ net then some (.num (sbase * (10 : Int) ^ net.toNat), rest)
        else some (.frac sbase (net.natAbs - 1), rest)

/-- Parse a JSON numeral by the `JSON.parse` grammar: an optional leading
`-`, then the magnitude. -/
def parseNumber : List Char → Option (Json × List Char)
  | [] => none
  | c :: cs =>
    if c = '-' then parseNumMag true cs
    else parseNumMag false (c :: cs)

/-- Match an expected literal character sequence. -/
def expectChars : List Char → List Char → Option (List Char)
  | [], cs => some cs
  | _ :: _, [] => none
  | p :: ps, c :: cs => if c = p then expectChars ps cs else none

mutual
/-- One JSON value, fueled recursive descent. -/
def parseValue : Nat → List Char → Option (Json × List Char)
  | 0, _ => none
  | fuel + 1, cs =>
    match skipWs cs with
    | [] => none
    | c :: rest =>
      if c = 'n' then
        match expectChars ['u', 'l', 'l'] rest with
        | some r => some (Json.null, r)
        | none => none
      else if c = 't' then
        match expectChars ['r', 'u', 'e'] rest with
        | some r => some (Json.bool true, r)
        | none => none
      else if c = 'f' then
        match expectChars ['a', 'l', 's', 'e'] rest with
        | some r => some (Json.bool false, r)
        | none => none
      else if c = '"' then
        match parseStringBody rest with
        | some (l, r) => some (Json.str (String.mk l), r)
        | none => none
      else if c = '[' then
        match skipWs rest with
        | [] => none
        | c2 :: rest2 =>
          if c2 = ']' then some (Json.arr [], rest2)
          else
            match parseElems fuel (c2 :: rest2) with
            | some (es, r) => some (Json.arr es, r)
            | none => none
      else if c = '\x7b' then
        match skipWs rest with
        | [] => none
        | c2 :: rest2 =>
          if c2 = '\x7d' then some (Json.obj [], rest2)
          else
            match parseFields fuel (c2 :: rest2) with
            | some (fs, r) => some (Json.obj fs, r)
            | none => none
      else if c = '-' ∨ isDigitChar c then parseNumber (c :: rest)
      else none
termination_by structural fuel _ => fuel

/-- One-or-more comma-separated values followed by `]`. -/
def parseElems : Nat → List Char → Option (List Json × List Char)
  | 0, _ => none
  | fuel + 1, cs =>
    match parseValue fuel cs with
    | none => none
    | some (v, r) =>
      match skipWs r with
      | [] => none
      | c :: r2 =>
        if c = ',' then
          match parseElems fuel r2 with
          | some (es, r3) => some (v :: es, r3)
          | none => none
        else if c = ']' then some ([v], r2)
        else none
termination_by structural fuel _ => fuel

/-- One-or-more comma-separated `"key":value` pairs followed by `}`. -/
def parseFields : Nat → List Char → Option (List (String × Json) × List Char)
  | 0, _ => none
  | fuel + 1, cs =>
    match skipWs cs with
    | [] => none
    | c :: rest =>
      if c = '"' then
        match parseStringBody rest with
        | some (kl, r1) =>
          match skipWs r1 with
          | [] => none
          | c2 :: r2 =>
            if c2 = ':' then
              match parseValue fuel r2 with
              | some (v, r3) =>
                match skipWs r3 with
                | [] => none
                | c3 :: r4 =>
                  if c3 = ',' then
                    match parseFields fuel r4 with
                    | some (fs, r5) => some ((String.mk kl, v) :: fs, r5)
                    | none => none
                  else if c3 = '\x7d' then some ([(String.mk kl, v)], r4)
                  else none
              | none => none
            else none
        | none => none
      else none
termination_by structural fuel _ => fuel
end

/-- `JSON.parse`: parse a complete document, allowing trailing whitespace. -/
def jsonParse (s : String) : Option Json :=
  match parseValue (s.data.length + 1) s.data with
  | some (v, rest) => if skipWs rest = [] then some v else none
  | none => none

/-- `true` when the input does not continue with a decimal digit. -/
def noLeadDigit : List Char → Bool
  | [] => true
  | c :: _ => !isDigitChar c

/-- `true` when the input does not continue with a character that could
extend a numeral (a digit, `.`, `e`, `E`), so a number parse that stopped
here is complete. -/
def noNumExt : List Char → Bool
  | [] => true
  | c :: _ => !(isDigitChar c || c == '.' || c == 'e' || c == 'E')

/-- The values printed as numerals. -/
def numLit : Json → Bool
  | .num _ => true
  | .frac _ _ => true
  | _ => false

/-! ### Printer/parser round trip -/

theorem mk_data (s : String) : String.mk s.data = s := by cases s; rfl

theorem skipWs_cons {c : Char} (cs : List Char) (h : isWsChar c = false) :
    skipWs (c :: cs) = c :: cs := by
  simp [skipWs, h]

theorem digitChar_spec (k : Nat) (h : k < 10) :
    isDigitChar (digitChar k) = true ∧ (digitChar k).toNat = 48 + k := by
  interval_cases k <;> exact ⟨by decide, by decide⟩

theorem isDigitChar_bounds {c : Char} (h : isDigitChar c = true) :
    48 ≤ c.toNat ∧ c.toNat ≤ 57 := by
  simpa [isDigitChar] using h

theorem natDigitsAux_congr (f1 : Nat) :
    ∀ f2 n, n < f1 → n < f2 → natDigitsAux f1 n = natDigitsAux f2 n := by
  induction f1 with
  | zero => omega
  | succ f ih =>
    intro f2 n h1 h2
    cases f2 with
    | zero => omega
    | succ f2' =>
      rw [natDigitsAux, natDigitsAux]
      by_cases h : n < 10
      · rw [if_pos h, if_pos h]
      · rw [if_neg h, if_neg h]
        have hdiv := Nat.div_lt_self (show 0 < n by omega) (show 1 < 10 by omega)
        rw [ih f2' (n / 10) (by omega) (by omega)]

/-- The recurrence `natDigits` satisfies. -/
theorem natDigits_eq (n : Nat) :
    natDigits n = if n < 10 then [digitChar n]
      else natDigits (n / 10) ++ [digitChar (n % 10)] := by
  unfold natDigits
  rw [natDigitsAux]
  by_cases h : n < 10
  · rw [if_pos h, if_pos h]
  · rw [if_neg h, if_neg h]
    have hdiv := Nat.div_lt_self (show 0 < n by omega) (show 1 < 10 by omega)
    rw [natDigitsAux_congr n (n / 10 + 1) (n / 10) (by omega) (by omega)]

theorem natDigits_all_digits (n : Nat) :
    ∀ c ∈ natDigits n, isDigitChar c = true := by
  induction n using Nat.strong_induction_on with
  | _ n ih =>
    intro c hc
    rw [natDigits_eq] at hc
    by_cases h : n < 10
    · rw [if_pos h] at hc
      simp at hc
      subst hc
      exact (digitChar_spec n h).1
    · rw [if_neg h] at hc
      rcases List.mem_append.mp hc with h1 | h2
      · exact ih (n / 10) (Nat.div_lt_self (by omega) (by omega)) c h1
      · simp at h2
        subst h2
        exact (digitChar_spec (n % 10) (Nat.mod_lt _ (by omega))).1

theorem natDigits_ne_nil (n : Nat) : natDigits n ≠ [] := by
  rw [natDigits_eq]
  by_cases h : n < 10
  · simp [h]
  · rw [if_neg h]
    simp

theorem spanDigits_append (l rest : List Char)
    (hl : ∀ c ∈ l, isDigitChar c = true) (hrest : noLeadDigit rest = true) :
    spanDigits (l ++ rest) = (l, rest) := by
  induction l with
  | nil =>
    cases rest with
    | nil => simp [spanDigits]
    | cons c cs =>
      have hc : isDigitChar c = false := by
        simpa [noLeadDigit] using hrest
      simp [spanDigits, hc]
  | cons c cs ih =>
    have hc : isDigitChar c = true := hl c (by simp)
    simp only [List.cons_append, spanDigits, hc, if_pos]
    rw [show cs.append rest = cs ++ rest from rfl, ih (fun d hd => hl d (by simp [hd]))]

theorem digitsVal_natDigits (n : Nat) (acc : Nat) :
    digitsVal (natDigits n) acc = acc * 10 ^ (natDigits n).length + n := by
  induction n using Nat.strong_induction_on generalizing acc with
  | _ n ih =>
    rw [natDigits_eq]
    by_cases h : n < 10
    · rw [if_pos h]
      simp [digitsVal, (digitChar_spec n h).2]
      omega
    · rw [if_neg h]
      have hd : (digitChar (n % 10)).toNat = 48 + n % 10 :=
        (digitChar_spec (n % 10) (Nat.mod_lt _ (by omega))).2
      unfold digitsVal
      rw [List.foldl_append]
      have ihh := ih (n / 10) (Nat.div_lt_self (by omega) (by omega)) acc
      unfold digitsVal at ihh
      rw [ihh]
      simp [hd, List.length_append]
      rw [pow_succ]
      have h10 : 0 < (10 : Nat) ^ (natDigits (n / 10)).length := Nat.pos_pow_of_pos _ (by omega)
      have := Nat.div_add_mod n 10
      ring_nf
      omega

/-- The first digit of a positive number is not `'0'`. -/
theorem natDigits_head_ne_zero (n : Nat) (hn : 0 < n) :
    ∀ d ds, natDigits n = d :: ds → d ≠ '0' := by
  induction n using Nat.strong_induction_on with
  | _ n ih =>
    intro d ds hds
    rw [natDigits_eq] at hds
    by_cases h : n < 10
    · rw [if_pos h] at hds
      simp only [List.cons.injEq] at hds
      rw [← hds.1]
      intro hc
      have := congrArg Char.toNat hc
      rw [(digitChar_spec n h).2] at this
      simp at this
      omega
    · rw [if_neg h] at hds
      obtain ⟨d0, ds0, hd0⟩ : ∃ d0 ds0, natDigits (n / 10) = d0 :: ds0 := by
        cases hq : natDigits (n / 10) with
        | nil => exact absurd hq (natDigits_ne_nil _)
        | cons d0 ds0 => exact ⟨d0, ds0, rfl⟩
      rw [hd0] at hds
      simp only [List.cons_append, List.cons.injEq] at hds
      rw [← hds.1]
      exact ih (n / 10) (Nat.div_lt_self (by omega) (by omega))
        (by omega) d0 ds0 hd0

/-- A number below `10 ^ k` has at most `k` digits (for `1 ≤ k`). -/
theorem natDigits_length_le (k : Nat) : ∀ n, 1 ≤ k → n < 10 ^ k →
    (natDigits n).length ≤ k := by
  induction k with
  | zero => omega
  | succ k ih =>
    intro n _ hn
    rw [natDigits_eq]
    by_cases h : n < 10
    · rw [if_pos h]; simp
    · rw [if_neg h]
      have hk : 1 ≤ k := by
        by_contra hk
        have : k = 0 := by omega
        subst this
        simp at hn
        omega
      have : n / 10 < 10 ^ k := by
        rw [pow_succ] at hn
        omega
      have := ih (n / 10) hk this
      simp [List.length_append]
      omega

theorem digitsVal_append (l1 l2 : List Char) (acc : Nat) :
    digitsVal (l1 ++ l2) acc = digitsVal l2 (digitsVal l1 acc) := by
  simp [digitsVal, List.foldl_append]

theorem digitsVal_replicate_zero (z : Nat) (acc : Nat) :
    digitsVal (List.replicate z '0') acc = acc * 10 ^ z := by
  induction z generalizing acc with
  | zero => simp [digitsVal]
  | succ z ih =>
    rw [List.replicate_succ]
    show digitsVal ('0' :: List.replicate z '0') acc = _
    simp only [digitsVal, List.foldl_cons] at ih ⊢
    rw [ih]
    have : (('0' : Char).toNat - 48) = 0 := by decide
    rw [this, pow_succ]
    ring

/-- `scanIntPart` consumes exactly the canonical digits of `n`. -/
theorem scanIntPart_natDigits (n : Nat) (rest : List Char)
    (hrest : noLeadDigit rest = true) :
    scanIntPart (natDigits n ++ rest) = some (natDigits n, rest) := by
  obtain ⟨d, ds, hds⟩ : ∃ d ds, natDigits n = d :: ds := by
    cases h : natDigits n with
    | nil => exact absurd h (natDigits_ne_nil n)
    | cons d ds => exact ⟨d, ds, rfl⟩
  have hd : isDigitChar d = true := natDigits_all_digits n d (by rw [hds]; simp)
  rw [hds]
  by_cases hn : n = 0
  · subst hn
    have h0 : natDigits 0 = ['0'] := by decide
    rw [h0] at hds
    simp only [List.cons.injEq] at hds
    obtain ⟨h1, h2⟩ := hds
    subst h1
    subst h2
    simp [scanIntPart]
  · have hd0 : d ≠ '0' := natDigits_head_ne_zero n (by omega) d ds hds
    simp only [List.cons_append, scanIntPart, if_neg hd0, hd, if_pos]
    rw [spanDigits_append ds rest
      (fun c hc => natDigits_all_digits n c (by rw [hds]; simp [hc])) hrest]

/-- Head facts of a numeral-complete boundary. -/
theorem noNumExt_facts {rest : List Char} (h : noNumExt rest = true) :
    noLeadDigit rest = true ∧ scanFracPart rest = some ([], rest) ∧
      scanExpPart rest = some (0, rest) := by
  cases rest with
  | nil => exact ⟨rfl, rfl, rfl⟩
  | cons c cs =>
    simp only [noNumExt, Bool.not_eq_true', Bool.or_eq_false_iff,
      beq_eq_false_iff_ne, ne_eq] at h
    obtain ⟨⟨⟨hdig, hdot⟩, he⟩, hE⟩ := h
    refine ⟨by simp [noLeadDigit, hdig], ?_, ?_⟩
    · simp only [scanFracPart, if_neg hdot]
    · simp only [scanExpPart]
      rw [if_neg (by push_neg; exact ⟨he, hE⟩)]

/-- `parseNumMag` on canonical integer digits. -/
theorem parseNumMag_natDigits (neg : Bool) (a : Nat) (rest : List Char)
    (hrest : noNumExt rest = true) :
    parseNumMag neg (natDigits a ++ rest) =
      some (.num (if neg then -(a : Int) else (a : Int)), rest) := by
  obtain ⟨hld, hfrac, hexp⟩ := noNumExt_facts hrest
  rw [parseNumMag, scanIntPart_natDigits a rest hld]
  simp only [hfrac, hexp]
  have hval : digitsVal (natDigits a ++ []) 0 = a := by
    rw [List.append_nil]
    simpa using digitsVal_natDigits a 0
  rw [hval]
  norm_num

/-- `parseNumber` on a printed integer. -/
theorem parseNumber_printInt (n : Int) (rest : List Char)
    (hrest : noNumExt rest = true) :
    parseNumber (printInt n ++ rest) = some (.num n, rest) := by
  rw [printInt]
  by_cases hneg : n < 0
  · rw [if_pos hneg]
    show parseNumber ('-' :: (natDigits n.natAbs ++ rest)) = _
    rw [parseNumber]
    simp only [reduceIte]
    rw [parseNumMag_natDigits true n.natAbs rest hrest]
    simp only [reduceIte, Option.some.injEq, Prod.mk.injEq, and_true, Json.num.injEq]
    omega
  · rw [if_neg hneg]
    obtain ⟨d, ds, hds⟩ : ∃ d ds, natDigits n.toNat = d :: ds := by
      cases h : natDigits n.toNat with
      | nil => exact absurd h (natDigits_ne_nil _)
      | cons d ds => exact ⟨d, ds, rfl⟩
    have hd : isDigitChar d = true := natDigits_all_digits _ d (by rw [hds]; simp)
    have hd' : d ≠ '-' := by
      intro hc
      rw [hc] at hd
      exact absurd hd (by decide)
    rw [hds]
    show parseNumber (d :: (ds ++ rest)) = _
    rw [parseNumber, if_neg hd']
    rw [show d :: (ds ++ rest) = natDigits n.toNat ++ rest by rw [hds]; rfl]
    rw [parseNumMag_natDigits false n.toNat rest hrest]
    simp only [Bool.false_eq_true, if_false, Option.some.injEq, Prod.mk.injEq,
      and_true, Json.num.injEq]
    omega

/-- `parseNumMag` on a printed fraction magnitude. -/
theorem parseNumMag_printFrac (neg : Bool) (a : Nat) (e : Nat) (rest : List Char)
    (hrest : noNumExt rest = true) :
    parseNumMag neg
        (natDigits (a / 10 ^ (e + 1)) ++ '.' :: padDigits (e + 1) (a % 10 ^ (e + 1))
          ++ rest) =
      some (.frac (if neg then -(a : Int) else (a : Int)) e, rest) := by
  obtain ⟨hld, hfrac, hexp⟩ := noNumExt_facts hrest
  have hpow : 0 < 10 ^ (e + 1) := Nat.pos_pow_of_pos _ (by omega)
  set q := a / 10 ^ (e + 1) with hq
  set r := a % 10 ^ (e + 1) with hr
  have hrlt : r < 10 ^ (e + 1) := Nat.mod_lt _ hpow
  have hlen : (natDigits r).length ≤ e + 1 := natDigits_length_le (e + 1) r (by omega) hrlt
  set z := (e + 1) - (natDigits r).length with hz
  have hpadlen : (padDigits (e + 1) r).length = e + 1 := by
    simp only [padDigits, List.length_append, List.length_replicate]
    omega
  have hpaddig : ∀ c ∈ padDigits (e + 1) r, isDigitChar c = true := by
    intro c hc
    simp only [padDigits, List.mem_append, List.mem_replicate] at hc
    rcases hc with ⟨_, hc⟩ | hc
    · rw [hc]; decide
    · exact natDigits_all_digits r c hc
  have hshape : natDigits q ++ '.' :: padDigits (e + 1) r ++ rest
      = natDigits q ++ ('.' :: (padDigits (e + 1) r ++ rest)) := by
    simp
  rw [hshape, parseNumMag,
    scanIntPart_natDigits q ('.' :: (padDigits (e + 1) r ++ rest)) rfl]
  have hfr : scanFracPart ('.' :: (padDigits (e + 1) r ++ rest))
      = some (padDigits (e + 1) r, rest) := by
    simp only [scanFracPart, reduceIte]
    rw [spanDigits_append _ _ hpaddig hld]
    obtain ⟨p, ps, hp⟩ : ∃ p ps, padDigits (e + 1) r = p :: ps := by
      cases hpp : padDigits (e + 1) r with
      | nil => rw [hpp] at hpadlen; simp at hpadlen
      | cons p ps => exact ⟨p, ps, rfl⟩
    rw [hp]
  simp only [hfr, hexp]
  have hbase : digitsVal (natDigits q ++ padDigits (e + 1) r) 0 = a := by
    rw [digitsVal_append]
    have h1 : digitsVal (natDigits q) 0 = q := by simpa using digitsVal_natDigits q 0
    rw [h1]
    simp only [padDigits, ← hz, digitsVal_append]
    rw [digitsVal_replicate_zero]
    rw [digitsVal_natDigits r (q * 10 ^ z)]
    have hzlen : z + (natDigits r).length = e + 1 := by omega
    rw [mul_assoc, ← pow_add, hzlen]
    rw [hq, hr]
    exact Nat.div_add_mod' a (10 ^ (e + 1))
  rw [hbase, hpadlen]
  have hnet : (0 : Int) - ((e + 1 : Nat) : Int) < 0 := by
    push_cast
    omega
  rw [if_neg (by omega)]
  have habs : ((0 : Int) - ((e + 1 : Nat) : Int)).natAbs - 1 = e := by
    omega
  rw [habs]

/-- `parseNumber` on a printed fraction. -/
theorem parseNumber_printFrac (m : Int) (e : Nat) (rest : List Char)
    (hrest : noNumExt rest = true) :
    parseNumber (printFrac m e ++ rest) = some (.frac m e, rest) := by
  by_cases hneg : m < 0
  · have hshape : printFrac m e ++ rest
        = '-' :: (natDigits (m.natAbs / 10 ^ (e + 1)) ++
          '.' :: padDigits (e + 1) (m.natAbs % 10 ^ (e + 1)) ++ rest) := by
      rw [printFrac, if_pos hneg]
      simp
    rw [hshape, parseNumber]
    simp only [reduceIte]
    rw [parseNumMag_printFrac true m.natAbs e rest hrest]
    simp only [reduceIte, Option.some.injEq, Prod.mk.injEq, and_true, Json.frac.injEq]
    omega
  · set a := m.natAbs with ha
    obtain ⟨d, ds, hds⟩ : ∃ d ds, natDigits (a / 10 ^ (e + 1)) = d :: ds := by
      cases h : natDigits (a / 10 ^ (e + 1)) with
      | nil => exact absurd h (natDigits_ne_nil _)
      | cons d ds => exact ⟨d, ds, rfl⟩
    have hd : isDigitChar d = true := natDigits_all_digits _ d (by rw [hds]; simp)
    have hd' : d ≠ '-' := by
      intro hc
      rw [hc] at hd
      exact absurd hd (by decide)
    have hshape : printFrac m e ++ rest
        = d :: (ds ++ '.' :: padDigits (e + 1) (a % 10 ^ (e + 1)) ++ rest) := by
      rw [printFrac, if_neg hneg, hds]
      simp
    rw [hshape, parseNumber, if_neg hd']
    rw [show d :: (ds ++ '.' :: padDigits (e + 1) (a % 10 ^ (e + 1)) ++ rest)
        = natDigits (a / 10 ^ (e + 1)) ++ '.' :: padDigits (e + 1) (a % 10 ^ (e + 1))
          ++ rest by rw [hds]; simp]
    rw [parseNumMag_printFrac false a e rest hrest]
    simp only [Bool.false_eq_true, if_false, Option.some.injEq, Prod.mk.injEq,
      and_true, Json.frac.injEq]
    omega

theorem hexVal_hexDigitChar (k : Nat) (h : k < 16) :
    hexVal (hexDigitChar k) = some k := by
  interval_cases k <;> decide

theorem psb_quote (cs : List Char) : parseStringUnits ('"' :: cs) = some ([], cs) := by
  rw [parseStringUnits.eq_def]
  simp

theorem psb_escDecode {e d : Char} (h : escDecode e = some d) (cs : List Char) :
    parseStringUnits ('\\' :: e :: cs) =
      (parseStringUnits cs).map (fun p => (d.toNat :: p.1, p.2)) := by
  have hu : e ≠ 'u' := by rintro rfl; simp [escDecode] at h
  cases hps : parseStringUnits cs with
  | none => rw [parseStringUnits.eq_def]; simp [hu, h, hps]
  | some p => rw [parseStringUnits.eq_def]; simp [hu, h, hps]

theorem psb_unicode {c : Char} (h : c.toNat < 32) (cs : List Char) :
    parseStringUnits ('\\' :: 'u' :: '0' :: '0' ::
        hexDigitChar (c.toNat / 16) :: hexDigitChar (c.toNat % 16) :: cs) =
      (parseStringUnits cs).map (fun p => (c.toNat :: p.1, p.2)) := by
  have h0 : hexVal '0' = some 0 := by decide
  have h1 := hexVal_hexDigitChar (c.toNat / 16) (by omega)
  have h2 := hexVal_hexDigitChar (c.toNat % 16) (by omega)
  have hcode : ((0 * 16 + 0) * 16 + c.toNat / 16) * 16 + c.toNat % 16 = c.toNat := by
    omega
  have hne : ¬ ('\\' : Char) = '"' := by decide
  cases hps : parseStringUnits cs with
  | none =>
    rw [parseStringUnits.eq_def]
    simp only [reduceIte, h0, h1, h2, hps, reduceCtorEq, if_neg hne]
    rfl
  | some p =>
    rw [parseStringUnits.eq_def]
    simp only [reduceIte, h0, h1, h2, hps, reduceCtorEq, if_neg hne]
    rw [hcode]
    rfl

theorem psb_plain {c : Char} (h1 : c ≠ '"') (h2 : c ≠ '\\') (h3 : 32 ≤ c.toNat)
    (cs : List Char) :
    parseStringUnits (c :: cs) =
      (parseStringUnits cs).map (fun p => (c.toNat :: p.1, p.2)) := by
  rw [parseStringUnits.eq_def]
  simp only [if_neg h1, if_neg h2, if_neg (show ¬ c.toNat < 32 by omega)]
  cases parseStringUnits cs <;> rfl

theorem parseStringUnits_escapeChar (c : Char) (cs : List Char) :
    parseStringUnits (escapeChar c ++ cs) =
      (parseStringUnits cs).map (fun p => (c.toNat :: p.1, p.2)) := by
  unfold escapeChar
  by_cases hq : c = '"'
  · subst hq; simpa using psb_escDecode (show escDecode '"' = some '"' by decide) cs
  rw [if_neg hq]
  by_cases hb : c = '\\'
  · subst hb; simpa using psb_escDecode (show escDecode '\\' = some '\\' by decide) cs
  rw [if_neg hb]
  by_cases h8 : c.toNat = 8
  · rw [if_pos h8]
    have h := psb_escDecode (show escDecode 'b' = some (Char.ofNat 8) by decide) cs
    simpa [show (Char.ofNat 8).toNat = c.toNat by rw [h8]; rfl] using h
  rw [if_neg h8]
  by_cases h9 : c.toNat = 9
  · rw [if_pos h9]
    have h := psb_escDecode (show escDecode 't' = some (Char.ofNat 9) by decide) cs
    simpa [show (Char.ofNat 9).toNat = c.toNat by rw [h9]; rfl] using h
  rw [if_neg h9]
  by_cases h10 : c.toNat = 10
  · rw [if_pos h10]
    have h := psb_escDecode (show escDecode 'n' = some (Char.ofNat 10) by decide) cs
    simpa [show (Char.ofNat 10).toNat = c.toNat by rw [h10]; rfl] using h
  rw [if_neg h10]
  by_cases h12 : c.toNat = 12
  · rw [if_pos h12]
    have h := psb_escDecode (show escDecode 'f' = some (Char.ofNat 12) by decide) cs
    simpa [show (Char.ofNat 12).toNat = c.toNat by rw [h12]; rfl] using h
  rw [if_neg h12]
  by_cases h13 : c.toNat = 13
  · rw [if_pos h13]
    have h := psb_escDecode (show escDecode 'r' = some (Char.ofNat 13) by decide) cs
    simpa [show (Char.ofNat 13).toNat = c.toNat by rw [h13]; rfl] using h
  rw [if_neg h13]
  by_cases h32 : c.toNat < 32
  · rw [if_pos h32]
    simpa using psb_unicode h32 cs
  · rw [if_neg h32]
    simpa using psb_plain hq hb (by omega) cs

theorem parseStringUnits_escapeString (l : List Char) (cs : List Char) :
    parseStringUnits (escapeString l ++ '"' :: cs) =
      some (l.map Char.toNat, cs) := by
  induction l with
  | nil => simpa [escapeString] using psb_quote cs
  | cons c cs' ih =>
    rw [escapeString, List.append_assoc, parseStringUnits_escapeChar, ih]
    rfl

/-- A Lean character's code is a Unicode scalar value, never a surrogate. -/
theorem char_toNat_not_surrogate (c : Char) :
    c.toNat < 55296 ∨ 57343 < c.toNat := by
  have hv := c.valid
  rcases hv with h | h
  · left
    have : c.toNat = c.val.toNat := rfl
    omega
  · right
    have : c.toNat = c.val.toNat := rfl
    omega

theorem unitsToCharsAux_map_toNat (l : List Char) :
    ∀ fuel, l.length ≤ fuel → unitsToCharsAux fuel (l.map Char.toNat) = l := by
  induction l with
  | nil => intro fuel _; cases fuel <;> rfl
  | cons c cs ih =>
    intro fuel hf
    cases fuel with
    | zero => simp at hf
    | succ f =>
      simp only [List.map_cons, unitsToCharsAux]
      rw [if_pos (char_toNat_not_surrogate c)]
      rw [Char.ofNat_toNat, ih f (by simpa using hf)]

theorem unitsToChars_map_toNat (l : List Char) :
    unitsToChars (l.map Char.toNat) = l := by
  unfold unitsToChars
  exact unitsToCharsAux_map_toNat l _ (by simp)

theorem parseStringBody_escapeString (l : List Char) (cs : List Char) :
    parseStringBody (escapeString l ++ '"' :: cs) = some (l, cs) := by
  unfold parseStringBody
  rw [parseStringUnits_escapeString]
  simp [unitsToChars_map_toNat]

/-! ### Fuel accounting for the parser -/

mutual
/-- Fuel sufficient for `parseValue` to parse the printed form of `v`. -/
def jfuel : Json → Nat
  | .null | .bool _ | .num _ | .frac _ _ | .str _ => 1
  | .arr es => jfuelElems es + 1
  | .obj fs => jfuelFields fs + 1
termination_by structural j => j

def jfuelElems : List Json → Nat
  | [] => 1
  | v :: vs => jfuel v + jfuelElems vs
termination_by structural l => l

def jfuelFields : List (String × Json) → Nat
  | [] => 1
  | (_, v) :: fs => jfuel v + jfuelFields fs
termination_by structural fs => fs
end

theorem jfuel_pos (v : Json) : 1 ≤ jfuel v := by
  cases v <;> simp [jfuel]

theorem jfuelElems_pos (l : List Json) : 1 ≤ jfuelElems l := by
  cases l with
  | nil => simp [jfuelElems]
  | cons v vs => have := jfuel_pos v; simp [jfuelElems]; omega

theorem jfuelFields_pos (l : List (String × Json)) : 1 ≤ jfuelFields l := by
  cases l with
  | nil => simp [jfuelFields]
  | cons kv fs => have := jfuel_pos kv.2; simp [jfuelFields]; omega

mutual
theorem jfuel_le_len (v : Json) : jfuel v ≤ (printJson v).length := by
  cases v with
  | null => simp [jfuel, printJson]
  | bool b => cases b <;> simp [jfuel, printJson]
  | num n =>
    have h1 := natDigits_ne_nil n.natAbs
    have h2 := natDigits_ne_nil n.toNat
    have l1 := List.length_pos.mpr h1
    have l2 := List.length_pos.mpr h2
    simp only [jfuel, printJson, printInt]
    by_cases h : n < 0
    · rw [if_pos h]; simp only [List.length_cons]; omega
    · rw [if_neg h]; omega
  | frac m e =>
    simp only [jfuel, printJson, printFrac, List.length_append, List.length_cons]
    omega
  | str s => simp [jfuel, printJson, printString]
  | arr es =>
    have := jfuelElems_le_len es
    simp [jfuel, printJson]
    omega
  | obj fs =>
    have := jfuelFields_le_len fs
    simp [jfuel, printJson]
    omega
termination_by structural v

theorem jfuelElems_le_len (es : List Json) :
    jfuelElems es ≤ (printElems es).length + 1 := by
  cases es with
  | nil => simp [jfuelElems, printElems]
  | cons v vs =>
    have hv := jfuel_le_len v
    cases vs with
    | nil => simp [jfuelElems, printElems, jfuelElems]; omega
    | cons v2 vs2 =>
      have ht := jfuelElems_le_len (v2 :: vs2)
      simp [jfuelElems, printElems] at ht ⊢
      omega
termination_by structural es

theorem jfuelFields_le_len (fs : List (String × Json)) :
    jfuelFields fs ≤ (printFields fs).length + 1 := by
  cases fs with
  | nil => simp [jfuelFields, printFields]
  | cons kv fs' =>
    obtain ⟨k, v⟩ := kv
    have hv := jfuel_le_len v
    cases fs' with
    | nil => simp [jfuelFields, printFields, jfuelFields]; omega
    | cons kv2 fs2 =>
      have ht := jfuelFields_le_len (kv2 :: fs2)
      simp [jfuelFields, printFields] at ht ⊢
      omega
termination_by structural fs
end

/-! ### Head characters of printed values -/

theorem digit_no_clash {c : Char} (h : isDigitChar c = true) :
    isWsChar c = false ∧ c ≠ 'n' ∧ c ≠ 't' ∧ c ≠ 'f' ∧ c ≠ '"' ∧ c ≠ '[' ∧
      c ≠ '\x7b' ∧ c ≠ '-' ∧ c ≠ ']' ∧ c ≠ '\x7d' := by
  have hb := isDigitChar_bounds h
  refine ⟨?_, ?_, ?_, ?_, ?_, ?_, ?_, ?_, ?_, ?_⟩
  · simp [isWsChar]; omega
  all_goals rintro rfl; exact absurd h (by decide)

theorem printJson_head (v : Json) :
    ∃ c cs, printJson v = c :: cs ∧ isWsChar c = false ∧ c ≠ ']' ∧ c ≠ '\x7d' := by
  cases v with
  | null => exact ⟨'n', _, rfl, by decide, by decide, by decide⟩
  | bool b =>
    cases b
    · exact ⟨'f', _, rfl, by decide, by decide, by decide⟩
    · exact ⟨'t', _, rfl, by decide, by decide, by decide⟩
  | num n =>
    simp only [printJson, printInt]
    by_cases h : n < 0
    · rw [if_pos h]
      exact ⟨'-', _, rfl, by decide, by decide, by decide⟩
    · rw [if_neg h]
      obtain ⟨d, ds, hds⟩ : ∃ d ds, natDigits n.toNat = d :: ds := by
        cases hnd : natDigits n.toNat with
        | nil => exact absurd hnd (natDigits_ne_nil _)
        | cons d ds => exact ⟨d, ds, rfl⟩
      have hd : isDigitChar d = true := natDigits_all_digits _ d (by rw [hds]; simp)
      obtain ⟨hw, _, _, _, _, _, _, _, h1, h2⟩ := digit_no_clash hd
      exact ⟨d, ds, hds, hw, h1, h2⟩
  | frac m e =>
    simp only [printJson, printFrac]
    by_cases h : m < 0
    · rw [if_pos h]
      exact ⟨'-', _, rfl, by decide, by decide, by decide⟩
    · rw [if_neg h]
      obtain ⟨d, ds, hds⟩ : ∃ d ds,
          natDigits (m.natAbs / 10 ^ (e + 1)) = d :: ds := by
        cases hnd : natDigits (m.natAbs / 10 ^ (e + 1)) with
        | nil => exact absurd hnd (natDigits_ne_nil _)
        | cons d ds => exact ⟨d, ds, rfl⟩
      have hd : isDigitChar d = true := natDigits_all_digits _ d (by rw [hds]; simp)
      obtain ⟨hw, _, _, _, _, _, _, _, h1, h2⟩ := digit_no_clash hd
      refine ⟨d, ds ++ '.' :: padDigits (e + 1) (m.natAbs % 10 ^ (e + 1)), ?_, hw, h1, h2⟩
      rw [hds]
      simp
  | str s => refine ⟨'"', _, rfl, ?_, ?_, ?_⟩ <;> decide
  | arr es => refine ⟨'[', _, rfl, ?_, ?_, ?_⟩ <;> decide
  | obj fs => refine ⟨'\x7b', _, rfl, ?_, ?_, ?_⟩ <;> decide

theorem printElems_head (es : List Json) (h : es ≠ []) :
    ∃ c cs, printElems es = c :: cs ∧ isWsChar c = false ∧ c ≠ ']' ∧ c ≠ '\x7d' := by
  cases es with
  | nil => exact absurd rfl h
  | cons v vs =>
    obtain ⟨c, cs, hv, hw, h1, h2⟩ := printJson_head v
    cases vs with
    | nil => exact ⟨c, cs, by simp [printElems, hv], hw, h1, h2⟩
    | cons v2 vs2 =>
      exact ⟨c, cs ++ ',' :: printElems (v2 :: vs2), by simp [printElems, hv], hw, h1, h2⟩

theorem printFields_head (fs : List (String × Json)) (h : fs ≠ []) :
    ∃ cs, printFields fs = '"' :: cs := by
  cases fs with
  | nil => exact absurd rfl h
  | cons kv fs' =>
    obtain ⟨k, v⟩ := kv
    cases fs' with
    | nil =>
      exact ⟨escapeString k.data ++ '"' :: ':' :: printJson v,
        by simp [printFields, printString]⟩
    | cons kv2 fs2 =>
      exact ⟨escapeString k.data ++ '"' :: ':' :: (printJson v ++ ',' :: printFields (kv2 :: fs2)),
        by simp [printFields, printString]⟩


/-- A `-` or digit head dispatches `parseValue` to the numeral parser. -/
theorem parseValue_number (f : Nat) (c : Char) (cs : List Char)
    (h : c = '-' ∨ isDigitChar c = true) :
    parseValue (f + 1) (c :: cs) = parseNumber (c :: cs) := by
  rcases h with h | h
  · subst h
    rw [parseValue.eq_def]
    simp [skipWs, isWsChar]
  · obtain ⟨hw, c1, c2, c3, c4, c5, c6, _, _, _⟩ := digit_no_clash h
    rw [parseValue.eq_def]
    simp only [skipWs_cons _ hw, if_neg c1, if_neg c2, if_neg c3, if_neg c4,
      if_neg c5, if_neg c6, if_pos (Or.inr h)]

theorem parsePrint_master (fuel : Nat) :
    (∀ v rest, jfuel v ≤ fuel → (numLit v = true → noNumExt rest = true) →
      parseValue fuel (printJson v ++ rest) = some (v, rest)) ∧
    (∀ es rest, es ≠ [] → jfuelElems es ≤ fuel →
      parseElems fuel (printElems es ++ ']' :: rest) = some (es, rest)) ∧
    (∀ fs rest, fs ≠ [] → jfuelFields fs ≤ fuel →
      parseFields fuel (printFields fs ++ '\x7d' :: rest) = some (fs, rest)) := by
  induction fuel using Nat.strong_induction_on with
  | _ fuel IH =>
  cases fuel with
  | zero =>
    refine ⟨fun v rest hf _ => absurd hf (by have := jfuel_pos v; omega),
            fun es rest _ hf => absurd hf (by have := jfuelElems_pos es; omega),
            fun fs rest _ hf => absurd hf (by have := jfuelFields_pos fs; omega)⟩
  | succ f =>
    have IH1 := (IH f (by omega)).1
    have IH2 := (IH f (by omega)).2.1
    have IH3 := (IH f (by omega)).2.2
    refine ⟨?_, ?_, ?_⟩
    · intro v rest hf hnum
      cases v with
      | null =>
        show parseValue (f + 1) ('n' :: 'u' :: 'l' :: 'l' :: rest) = _
        rw [parseValue.eq_def]
        simp [skipWs, isWsChar, expectChars]
      | bool b =>
        cases b
        · show parseValue (f + 1) ('f' :: 'a' :: 'l' :: 's' :: 'e' :: rest) = _
          rw [parseValue.eq_def]
          simp [skipWs, isWsChar, expectChars]
        · show parseValue (f + 1) ('t' :: 'r' :: 'u' :: 'e' :: rest) = _
          rw [parseValue.eq_def]
          simp [skipWs, isWsChar, expectChars]
      | num n =>
        have hrest : noNumExt rest = true := hnum rfl
        show parseValue (f + 1) (printInt n ++ rest) = _
        rw [printInt]
        by_cases hneg : n < 0
        · rw [if_pos hneg]
          show parseValue (f + 1) ('-' :: (natDigits n.natAbs ++ rest)) = _
          rw [parseValue_number f '-' _ (Or.inl rfl)]
          rw [show '-' :: (natDigits n.natAbs ++ rest) = printInt n ++ rest by
            rw [printInt, if_pos hneg]; rfl]
          exact parseNumber_printInt n rest hrest
        · rw [if_neg hneg]
          obtain ⟨d, ds, hds⟩ : ∃ d ds, natDigits n.toNat = d :: ds := by
            cases hnd : natDigits n.toNat with
            | nil => exact absurd hnd (natDigits_ne_nil _)
            | cons d ds => exact ⟨d, ds, rfl⟩
          have hd : isDigitChar d = true := natDigits_all_digits _ d (by rw [hds]; simp)
          rw [hds]
          show parseValue (f + 1) (d :: (ds ++ rest)) = _
          rw [parseValue_number f d _ (Or.inr hd)]
          rw [show d :: (ds ++ rest) = printInt n ++ rest by
            rw [printInt, if_neg hneg, hds]; rfl]
          exact parseNumber_printInt n rest hrest
      | frac m e =>
        have hrest : noNumExt rest = true := hnum rfl
        show parseValue (f + 1) (printFrac m e ++ rest) = _
        by_cases hneg : m < 0
        · have hshape : printFrac m e ++ rest
              = '-' :: (natDigits (m.natAbs / 10 ^ (e + 1)) ++
                '.' :: padDigits (e + 1) (m.natAbs % 10 ^ (e + 1)) ++ rest) := by
            rw [printFrac, if_pos hneg]
            simp
          rw [hshape, parseValue_number f '-' _ (Or.inl rfl), ← hshape]
          exact parseNumber_printFrac m e rest hrest
        · obtain ⟨d, ds, hds⟩ : ∃ d ds,
              natDigits (m.natAbs / 10 ^ (e + 1)) = d :: ds := by
            cases hnd : natDigits (m.natAbs / 10 ^ (e + 1)) with
            | nil => exact absurd hnd (natDigits_ne_nil _)
            | cons d ds => exact ⟨d, ds, rfl⟩
          have hd : isDigitChar d = true := natDigits_all_digits _ d (by rw [hds]; simp)
          have hshape : printFrac m e ++ rest
              = d :: (ds ++ '.' :: padDigits (e + 1) (m.natAbs % 10 ^ (e + 1)) ++ rest) := by
            rw [printFrac, if_neg hneg, hds]
            simp
          rw [hshape, parseValue_number f d _ (Or.inr hd), ← hshape]
          exact parseNumber_printFrac m e rest hrest
      | str s =>
        have hshape : printJson (.str s) ++ rest
            = '"' :: (escapeString s.data ++ ('"' :: rest)) := by
          simp [printJson, printString]
        rw [hshape, parseValue.eq_def]
        simp only [skipWs_cons _ (show isWsChar '"' = false by decide), reduceIte]
        rw [parseStringBody_escapeString]
        simp [mk_data]
      | arr es =>
        cases es with
        | nil =>
          show parseValue (f + 1) ('[' :: ']' :: rest) = _
          rw [parseValue.eq_def]
          simp [skipWs, isWsChar]
        | cons v vs =>
          have hfe : jfuelElems (v :: vs) ≤ f := by
            simp only [jfuel] at hf; omega
          obtain ⟨c0, cs0, hpe, hw0, hne0, _⟩ := printElems_head (v :: vs) (by simp)
          have hshape : printJson (.arr (v :: vs)) ++ rest
              = '[' :: (printElems (v :: vs) ++ ']' :: rest) := by
            simp [printJson]
          rw [hshape, parseValue.eq_def]
          simp only [skipWs_cons _ (show isWsChar '[' = false by decide)]
          rw [hpe, List.cons_append, skipWs_cons _ hw0]
          simp only [if_neg hne0]
          rw [← List.cons_append, ← hpe, IH2 (v :: vs) rest (by simp) hfe]
          rfl
      | obj fs =>
        cases fs with
        | nil =>
          show parseValue (f + 1) ('\x7b' :: '\x7d' :: rest) = _
          rw [parseValue.eq_def]
          simp [skipWs, isWsChar]
        | cons kv fs' =>
          have hfe : jfuelFields (kv :: fs') ≤ f := by
            simp only [jfuel] at hf; omega
          obtain ⟨cs0, hpe⟩ := printFields_head (kv :: fs') (by simp)
          have hshape : printJson (.obj (kv :: fs')) ++ rest
              = '\x7b' :: (printFields (kv :: fs') ++ '\x7d' :: rest) := by
            simp [printJson]
          rw [hshape, parseValue.eq_def]
          simp only [skipWs_cons _ (show isWsChar '\x7b' = false by decide)]
          rw [hpe, List.cons_append, skipWs_cons _ (show isWsChar '"' = false by decide)]
          simp only [if_neg (show ('"' : Char) ≠ '\x7d' by decide)]
          rw [← List.cons_append, ← hpe, IH3 (kv :: fs') rest (by simp) hfe]
          rfl
    · intro es rest hne hfe
      cases es with
      | nil => exact absurd rfl hne
      | cons v vs =>
        cases vs with
        | nil =>
          have hfv : jfuel v ≤ f := by
            simp only [jfuelElems] at hfe; omega
          have hv := IH1 v (']' :: rest) hfv (fun _ => rfl)
          show parseElems (f + 1) (printJson v ++ ']' :: rest) = _
          rw [parseElems.eq_def]
          simp only [hv]
          rfl
        | cons v2 vs2 =>
          have hpos1 := jfuel_pos v
          have hpos2 := jfuel_pos v2
          have hpos3 := jfuelElems_pos vs2
          have hfv : jfuel v ≤ f := by
            simp only [jfuelElems] at hfe; omega
          have hfe2 : jfuelElems (v2 :: vs2) ≤ f := by
            simp only [jfuelElems] at hfe ⊢; omega
          have hshape : printElems (v :: v2 :: vs2) ++ ']' :: rest
              = printJson v ++ (',' :: (printElems (v2 :: vs2) ++ ']' :: rest)) := by
            simp [printElems]
          have hv := IH1 v (',' :: (printElems (v2 :: vs2) ++ ']' :: rest)) hfv
            (fun _ => rfl)
          rw [hshape, parseElems.eq_def]
          simp only [hv]
          show (match parseElems f (printElems (v2 :: vs2) ++ ']' :: rest) with
                | some (es, r3) => some (v :: es, r3)
                | none => none) = some (v :: v2 :: vs2, rest)
          rw [IH2 (v2 :: vs2) rest (by simp) hfe2]
    · intro fs rest hne hfe
      cases fs with
      | nil => exact absurd rfl hne
      | cons kv fs' =>
        obtain ⟨k, v⟩ := kv
        cases fs' with
        | nil =>
          have hfv : jfuel v ≤ f := by
            simp only [jfuelFields] at hfe; omega
          have hv := IH1 v ('\x7d' :: rest) hfv (fun _ => rfl)
          have hshape : printFields [(k, v)] ++ '\x7d' :: rest
              = '"' :: (escapeString k.data ++ '"' :: (':' :: (printJson v ++ '\x7d' :: rest))) := by
            simp [printFields, printString]
          rw [hshape, parseFields.eq_def]
          simp only [skipWs_cons _ (show isWsChar '"' = false by decide), reduceIte]
          rw [parseStringBody_escapeString]
          simp only [skipWs_cons _ (show isWsChar ':' = false by decide), reduceIte]
          rw [hv]
          simp only [skipWs_cons _ (show isWsChar '\x7d' = false by decide), reduceIte,
            if_neg (show ('\x7d' : Char) ≠ ',' by decide)]
        | cons kv2 fs2 =>
          obtain ⟨k2, v2⟩ := kv2
          have hpos1 := jfuel_pos v
          have hpos2 := jfuel_pos v2
          have hpos3 := jfuelFields_pos fs2
          have hfv : jfuel v ≤ f := by
            simp only [jfuelFields] at hfe; omega
          have hfe2 : jfuelFields ((k2, v2) :: fs2) ≤ f := by
            simp only [jfuelFields] at hfe ⊢; omega
          have hv := IH1 v (',' :: (printFields ((k2, v2) :: fs2) ++ '\x7d' :: rest)) hfv
            (fun _ => rfl)
          have hshape : printFields ((k, v) :: (k2, v2) :: fs2) ++ '\x7d' :: rest
              = '"' :: (escapeString k.data ++ '"' ::
                  (':' :: (printJson v ++ (',' :: (printFields ((k2, v2) :: fs2) ++ '\x7d' :: rest))))) := by
            simp [printFields, printString]
          rw [hshape, parseFields.eq_def]
          simp only [skipWs_cons _ (show isWsChar '"' = false by decide), reduceIte]
          rw [parseStringBody_escapeString]
          simp only [skipWs_cons _ (show isWsChar ':' = false by decide), reduceIte]
          rw [hv]
          simp only [skipWs_cons _ (show isWsChar ',' = false by decide), reduceIte]
          rw [IH3 ((k2, v2) :: fs2) rest (by simp) hfe2]

theorem printJson_ne_nil (v : Json) : printJson v ≠ [] := by
  obtain ⟨c, cs, h, _, _, _⟩ := printJson_head v
  simp [h]

theorem jsonStringify_ne_empty (v : Json) : jsonStringify v ≠ "" :=
  fun h => printJson_ne_nil v (congrArg String.data h)

/-- `JSON.parse` inverts `JSON.stringify` on every modelled JSON value. -/
theorem jsonParse_stringify (v : Json) : jsonParse (jsonStringify v) = some v := by
  unfold jsonParse jsonStringify
  have hlen : jfuel v ≤ (printJson v).length + 1 :=
    le_trans (jfuel_le_len v) (by omega)
  have h := (parsePrint_master ((printJson v).length + 1)).1 v [] hlen
    (fun _ => rfl)
  rw [List.append_nil] at h
  simp only [h, skipWs, reduceIte]

/-! ## Shared metadata / attribute entry codec

Both serializers store record values as strings: a value that is already a
string is stored raw (`typeof value === 'string' ? value : JSON.stringify(value)`),
anything else is JSON text; decoding attempts `JSON.parse` first and falls
back to the raw string on parse failure. -/

def encodeMetaEntry (kv : String × Json) : String × String :=
  (kv.1, match kv.2 with
    | .str s => s
    | v => jsonStringify v)

def decodeMetaEntry (kv : String × String) : String × Json :=
  (kv.1, match jsonParse kv.2 with
    | some j => j
    | none => .str kv.2)

/-- A value survives the raw-string/JSON entry codec when it is not a string,
or is a string that `JSON.parse` rejects. -/
def metaValSafe : Json → Bool
  | .str s => (jsonParse s).isNone
  | _ => true

theorem decodeMetaEntry_encodeMetaEntry (kv : String × Json)
    (h : metaValSafe kv.2 = true) : decodeMetaEntry (encodeMetaEntry kv) = kv := by
  obtain ⟨k, v⟩ := kv
  cases v with
  | str s =>
    simp only [metaValSafe, Option.isNone_iff_eq_none] at h
    simp [encodeMetaEntry, decodeMetaEntry, h]
  | null => simp [encodeMetaEntry, decodeMetaEntry, jsonParse_stringify]
  | bool b => simp [encodeMetaEntry, decodeMetaEntry, jsonParse_stringify]
  | num n => simp [encodeMetaEntry, decodeMetaEntry, jsonParse_stringify]
  | frac m e => simp [encodeMetaEntry, decodeMetaEntry, jsonParse_stringify]
  | arr es => simp [encodeMetaEntry, decodeMetaEntry, jsonParse_stringify]
  | obj fs => simp [encodeMetaEntry, decodeMetaEntry, jsonParse_stringify]

theorem metaMap_roundtrip (m : List (String × Json))
    (h : ∀ kv ∈ m, metaValSafe kv.2 = true) :
    (m.map encodeMetaEntry).map decodeMetaEntry = m := by
  induction m with
  | nil => rfl
  | cons kv rest ih =>
    simp only [List.map_cons, List.cons.injEq]
    exact ⟨decodeMetaEntry_encodeMetaEntry kv (h kv (by simp)),
      ih (fun kv' hkv' => h kv' (by simp [hkv']))⟩

/-! ## Event serializer (`src/serialization/event-serializer.ts`)

`EventPriority` ordinals: `PRIORITY_NORMAL = 0`, `PRIORITY_LOW = 1`,
`PRIORITY_HIGH = 2`, `PRIORITY_IMMEDIATE = 3`. -/

inductive Priority where
  | immediate | high | normal | low
deriving DecidableEq

/-- Connectome `ComponentRef`. -/
structure ComponentRef where
  componentId : String
  componentPath : Option (List String)
  componentType : Option String

/-- Connectome `SpaceEvent` (payload and metadata values restricted to the
modelled JSON space). -/
structure SpaceEvent where
  topic : String
  source : ComponentRef
  payload : Option Json
  timestamp : Int
  priority : Option Priority
  sync : Option Bool
  metadata : Option (List (String × Json))

structure ProtoComponentRef where
  componentId : String
  componentPath : List String
  componentType : String

/-- Proto `SpaceEvent`; `payloadJson` models the UTF-8 byte field as the JSON
text itself (empty string ⇔ zero-length byte field). -/
structure ProtoSpaceEvent where
  topic : String
  source : ProtoComponentRef
  payloadJson : String
  timestamp : Int
  priority : Nat
  metadata : List (String × String)
  sync : Bool

/-- `priorityToProto`: `'immediate'`→3, `'high'`→2, `'low'`→1, default
(including `'normal'` and `undefined`) → 0. -/
def priorityToProto : Option Priority → Nat
  | some .immediate => 3
  | some .high => 2
  | some .low => 1
  | _ => 0

/-- `protoToPriority`: 3→`'immediate'`, 2→`'high'`, 1→`'low'`, default→`'normal'`. -/
def protoToPriority (p : Nat) : Priority :=
  if p = 3 then .immediate
  else if p = 2 then .high
  else if p = 1 then .low
  else .normal

def componentRefToProto (ref : ComponentRef) : ProtoComponentRef :=
  { componentId := ref.componentId
    componentPath := ref.componentPath.getD []
    componentType := ref.componentType.getD "" }

def protoToComponentRef (proto : ProtoComponentRef) : ComponentRef :=
  { componentId := proto.componentId
    componentPath := some proto.componentPath
    componentType := if proto.componentType ≠ "" then some proto.componentType else none }

/-- `eventToProto`. -/
def eventToProto (event : SpaceEvent) : ProtoSpaceEvent :=
  {
        topic := event.topic
        source := componentRefToProto event.source
        payloadJson :=
        match event.payload with
        | none => ""
        | some p => jsonStringify p
        timestamp := event.timestamp
        priority := priorityToProto event.priority
        metadata :=
        match event.metadata with
        | none => []
        | some m => m.map encodeMetaEntry
        sync := event.sync.getD false }

/-- `protoToEvent`; a payload that fails to parse degrades to `{}` with a
diagnostic, and empty wire metadata decodes to an absent map. -/
def protoToEvent (proto : ProtoSpaceEvent) : SpaceEvent :=
  let md := proto.metadata.map decodeMetaEntry
  {
        topic := proto.topic
        source := protoToComponentRef proto.source
        payload :=
        if proto.payloadJson = "" then none
        else some (match jsonParse proto.payloadJson with
        | some v => v
        | none => .obj [])
        timestamp := proto.timestamp
        priority := some (protoToPriority proto.priority)
        sync := if proto.sync then some true else none
        metadata := match md with
        | [] => none
        | _ => some md }

/-! ## Facet serializer (`src/serialization/facet-serializer.ts`)

`Facet` is the recursive content tree of `src/types.ts`; `Option` marks
aspects that may be absent (`'aspect' in facet` guards).  The `Attachment`
`data` field is modelled in its `Uint8Array` form (the source also accepts a
base64 string, which it decodes to the same bytes; the string form is not
modelled).  `Buffer` values are identified with `Uint8Array` values as the
source converts between them contents-preserving. -/

/-- Connectome `Attachment` (from `src/types.ts`). -/
structure ConnAttachment where
  id : String
  contentType : String
  data : Option (List Nat)
  url : Option String
  sizeBytes : Option Nat
  filename : Option String
  mimeType : Option String
  metadata : Option (List (String × Json))

/-- Proto `Attachment` (`ProtoAttachment` in the source). -/
structure PAttachment where
  id : String
  contentType : String
  inlineData : Option (List Nat)
  url : Option String
  sizeBytes : Nat
  filename : String
  metadata : List (String × String)

/-- Connectome `Facet`: a node of the recursive content tree.  The optional
`children` array is modelled by a presence flag (`childrenPresent`, the
`'children' in facet` key test) alongside the list itself; an absent aspect is
`(false, [])`, and a present-but-empty array is `(true, [])`. -/
inductive Facet where
  | mk
    (id : String)
    (type : String)
    (content : Option String)
    (state : Option Json)
    (tags : Option (List String))
    (agentId : Option String)
    (agentName : Option String)
    (streamId : Option String)
    (streamType : Option String)
    (scopes : Option (List String))
    (ephemeral : Option Bool)
    (childrenPresent : Bool)
    (children : List Facet)
    (attributes : Option (List (String × Json)))
    (attachments : Option (List ConnAttachment))
    : Facet

/-- Proto `Facet` (`ProtoFacet` in the source); `stateJson` models the UTF-8
byte field as the JSON text itself. -/
inductive PFacet where
  | mk
    (id : String)
    (type : String)
    (stateJson : String)
    (content : String)
    (tags : List String)
    (agentId : String)
    (agentName : String)
    (streamId : String)
    (streamType : String)
    (scopes : List String)
    (ephemeral : Bool)
    (children : List PFacet)
    (attributes : List (String × String))
    (attachments : List PAttachment)
    : PFacet

def Facet.contentOf : Facet → Option String
  | .mk _ _ content _ _ _ _ _ _ _ _ _ _ _ _ => content

def Facet.stateOf : Facet → Option Json
  | .mk _ _ _ state _ _ _ _ _ _ _ _ _ _ _ => state

def Facet.idOf : Facet → String
  | .mk id _ _ _ _ _ _ _ _ _ _ _ _ _ _ => id

def Facet.childrenOf : Facet → Bool × List Facet
  | .mk _ _ _ _ _ _ _ _ _ _ _ present children _ _ => (present, children)

/-- `attachmentToProto`. -/
def attachmentToProto (a : ConnAttachment) : PAttachment :=
  let ct :=
    if a.contentType ≠ "" then a.contentType
    else match a.mimeType with
      | some m => if m ≠ "" then m else "application/octet-stream"
      | none => "application/octet-stream"
  let md :=
    match a.metadata with
    | none => []
    | some m => m.map encodeMetaEntry
  match a.data with
  | some bytes =>
    { id := a.id, contentType := ct, inlineData := some bytes, url := none
      sizeBytes := bytes.length, filename := a.filename.getD "", metadata := md }
  | none =>
    match a.url with
    | some u =>
      if u ≠ "" then
        { id := a.id, contentType := ct, inlineData := none, url := some u
          sizeBytes := a.sizeBytes.getD 0, filename := a.filename.getD "", metadata := md }
      else
        { id := a.id, contentType := ct, inlineData := none, url := none
          sizeBytes := 0, filename := a.filename.getD "", metadata := md }
    | none =>
      { id := a.id, contentType := ct, inlineData := none, url := none
        sizeBytes := 0, filename := a.filename.getD "", metadata := md }

/-- `protoToAttachment`. -/
def protoToAttachment (p : PAttachment) : ConnAttachment :=
  let du : Option (List Nat) × Option String :=
    match p.inlineData with
    | some b =>
      if b ≠ [] then (some b, none)
      else match p.url with
        | some u => if u ≠ "" then (none, some u) else (none, none)
        | none => (none, none)
    | none =>
      match p.url with
      | some u => if u ≠ "" then (none, some u) else (none, none)
      | none => (none, none)
  { id := p.id
    contentType := p.contentType
    data := du.1
    url := du.2
    sizeBytes := some p.sizeBytes
    filename := some p.filename
    mimeType := none
    metadata := match p.metadata with
      | [] => none
      | m => some (m.map decodeMetaEntry) }

mutual
/-- `facetToProto`: absent aspects map to wire defaults (empty string, empty
collection, `false`), `state` is JSON-encoded into the byte field, children
encode recursively. -/
def facetToProto : Facet → PFacet
  | .mk id ty content state tags aId aName sId sTy scopes eph chp children attrs atts =>
    .mk id ty
      (match state with
        | none => ""
        | some s => jsonStringify s)
      (content.getD "")
      (tags.getD [])
      (aId.getD "") (aName.getD "") (sId.getD "") (sTy.getD "")
      (scopes.getD [])
      (eph.getD false)
      (match chp with
        | false => []
        | true => facetsToProtoList children)
      ((match attrs with
        | none => []
        | some m => m).map encodeMetaEntry)
      ((match atts with
        | none => []
        | some l => l).map attachmentToProto)
termination_by structural f => f

def facetsToProtoList : List Facet → List PFacet
  | [] => []
  | f :: fs => facetToProto f :: facetsToProtoList fs
termination_by structural l => l
end

mutual
/-- `protoToFacet`: an aspect is reconstructed only when its wire value
differs from the wire default. -/
def protoToFacet : PFacet → Facet
  | .mk id ty stateJson content tags aId aName sId sTy scopes eph children attrs atts =>
    .mk id ty
      (if content ≠ "" then some content else none)
      (if stateJson ≠ "" then
        some (match jsonParse stateJson with
          | some v => v
          | none => .obj [])
       else none)
      (if tags ≠ [] then some tags else none)
      (if aId ≠ "" then some aId else none)
      (if aName ≠ "" then some aName else none)
      (if sId ≠ "" then some sId else none)
      (if sTy ≠ "" then some sTy else none)
      (if scopes ≠ [] then some scopes else none)
      (if eph then some true else none)
      (match children with
        | [] => false
        | _ => true)
      (match children with
        | [] => []
        | cs => protosToFacetList cs)
      (match attrs with
        | [] => none
        | m => some (m.map decodeMetaEntry))
      (match atts with
        | [] => none
        | l => some (l.map protoToAttachment))
termination_by structural p => p

def protosToFacetList : List PFacet → List Facet
  | [] => []
  | p :: ps => protoToFacet p :: protosToFacetList ps
termination_by structural l => l
end

/-! ## Attachment handler (`src/serialization/attachment-handler.ts`) -/

/-- `MAX_INLINE_SIZE = 1024 * 1024` (1 MiB). -/
def MAX_INLINE_SIZE : Nat := 1024 * 1024

/-- `CHUNK_SIZE = 64 * 1024`. -/
def CHUNK_SIZE : Nat := 64 * 1024

/-- `shouldInlineAttachment(size) = size <= MAX_INLINE_SIZE`. -/
def shouldInlineAttachment (size : Nat) : Bool := size ≤ MAX_INLINE_SIZE

/-- JavaScript record assignment `m[k] = v`: an existing key is updated in
place, a new key is appended. -/
def setKV : List (String × String) → String → String → List (String × String)
  | [], k, v => [(k, v)]
  | (k0, v0) :: rest, k, v =>
    if k0 = k then (k, v) :: rest else (k0, v0) :: setKV rest k v

/-- JavaScript record read `m[k]`. -/
def lookupKV : List (String × String) → String → Option String
  | [], _ => none
  | (k0, v0) :: rest, k => if k0 = k then some v0 else lookupKV rest k

/-- `createAttachment(data, contentType, filename?, metadata?)`; the generated
random id is passed in explicitly (`generateAttachmentId` draws on the clock
and `Math.random`). -/
def createAttachment (id : String) (data : List Nat) (contentType : String)
    (filename : Option String) (metadata : Option (List (String × String))) :
    PAttachment :=
  let base : PAttachment :=
    { id := id
      contentType := contentType
      inlineData := none
      url := none
      sizeBytes := data.length
      filename := filename.getD ""
      metadata := metadata.getD [] }
  if shouldInlineAttachment data.length then
    { base with inlineData := some data }
  else
    { base with
        metadata := setKV (setKV base.metadata "requiresUpload" "true")
          "originalSize" (natToString data.length) }

/-- `chunkData(data, chunkSize)`: successive slices of `chunkSize` bytes
(meaningful for positive `chunkSize`, as in the source's 64 KiB default). -/
def chunkData (data : List Nat) (chunkSize : Nat) : List (List Nat) :=
  if data = [] ∨ chunkSize = 0 then []
  else chunkData.go data chunkSize
where
  go : List Nat → Nat → List (List Nat)
    | [], _ => []
    | d :: ds, chunkSize =>
      (d :: ds).take chunkSize ::
        (if _h : chunkSize = 0 then [] else go ((d :: ds).drop chunkSize) chunkSize)
  termination_by l _ => l.length
  decreasing_by
    simp only [List.length_drop, List.length_cons]
    omega

/-- `assembleChunks`: allocate the sum of the chunk lengths and copy each
chunk at its running offset — concatenation in received order. -/
def assembleChunks (chunks : List (List Nat)) : List Nat :=
  chunks.foldl (fun acc c => acc ++ c) []

/-- Modelled from the spec: the specification's reassembly operation, which
"must reject reassembly if expected total length (sum of chunk lengths) does
not match a separately known expected size".  The source's `assembleChunks`
takes no expected size and never rejects; this definition follows the spec's
words for comparison. -/
def specAssembleChunks (expectedSize : Nat) (chunks : List (List Nat)) :
    Option (List Nat) :=
  if (chunks.map List.length).sum = expectedSize then some (assembleChunks chunks)
  else none

/-! ### Checksum

`calculateChecksum` runs `hash = (hash ^ byte; (hash * 16777619) >>> 0)` from
seed `2166136261`.  JavaScript evaluates `hash * 16777619` in Float64: `^`
yields a signed 32-bit value, the product (up to 2^55) exceeds Float64's 53-bit
significand and is rounded to nearest-even before `>>> 0` truncates it to 32
bits.  The rounding is modelled exactly. -/

/-- Floor base-2 logarithm, fueled so the kernel can evaluate it. -/
def log2Aux : Nat → Nat → Nat
  | 0, _ => 0
  | fuel + 1, n => if n < 2 then 0 else log2Aux fuel (n / 2) + 1

def log2Nat (n : Nat) : Nat := log2Aux n n

/-- Round a natural number to 53 significant bits, ties to even — the value a
Float64 holds after an exact integer product. -/
def round53 (m : Nat) : Nat :=
  if m < 2 ^ 53 then m
  else
    let e := log2Nat m - 52
    let ulp := 2 ^ e
    let q := m / ulp
    let r := m % ulp
    if r > ulp / 2 then (q + 1) * ulp
    else if r < ulp / 2 then q * ulp
    else if q % 2 = 0 then q * ulp else (q + 1) * ulp

/-- JavaScript `ToInt32` of a 32-bit unsigned value. -/
def jsToInt32 (x : Nat) : Int :=
  if x < 2 ^ 31 then (x : Int) else (x : Int) - 2 ^ 32

/-- JavaScript `a * b` for an exact 32-bit signed `a` and small constant `b`:
the exact product rounded to Float64. -/
def jsMulRounded (s : Int) (m : Nat) : Int :=
  let p := s * (m : Int)
  if p < 0 then -(round53 p.natAbs : Int) else (round53 p.natAbs : Int)

/-- JavaScript `>>> 0` (ToUint32) of an integral Float64 value. -/
def toUint32 (i : Int) : Nat := (i % (2 ^ 32 : Int)).toNat

/-- One loop iteration of `calculateChecksum` under JavaScript arithmetic. -/
def fnvStepJs (h b : Nat) : Nat :=
  toUint32 (jsMulRounded (jsToInt32 (Nat.xor h b)) 16777619)

/-- One loop iteration under the exact 32-bit arithmetic the spec describes
(XOR the byte, multiply by 0x01000193, mask to 32 bits). -/
def fnvStepSpec (h b : Nat) : Nat := (Nat.xor h b * 16777619) % 2 ^ 32

/-- `hash.toString(16).padStart(8, '0')`. -/
def natHexAux : Nat → Nat → List Char
  | 0, _ => []
  | fuel + 1, n =>
    if n < 16 then [hexDigitChar n]
    else natHexAux fuel (n / 16) ++ [hexDigitChar (n % 16)]

def toHex8 (n : Nat) : String :=
  let ds := natHexAux (n + 1) n
  String.mk (List.replicate (8 - ds.length) '0' ++ ds)

/-- `calculateChecksum` as the code computes it (Float64-rounded multiply). -/
def calculateChecksum (data : List Nat) : String :=
  toHex8 (data.foldl fnvStepJs 2166136261)

/-- The checksum the spec describes: exact FNV-1a, seed 0x811C9DC5, multiplier
0x01000193, masked to 32 bits per byte. -/
def specChecksum (data : List Nat) : String :=
  toHex8 (data.foldl fnvStepSpec 2166136261)

/-- `verifyChecksum(data, expected) = calculateChecksum(data) === expected`. -/
def verifyChecksum (data : List Nat) (expectedChecksum : String) : Bool :=
  calculateChecksum data == expectedChecksum

/-! ## Client session (`src/client.ts`)

The `ConnectomeClient` state is the fields the reconnect machinery touches:
`connected`, `reconnecting`, `reconnectAttempts`, the subscription stream
handle and the transport handle (modelled as open/closed flags), plus an
observation trace: every emitted notification in order, and counters of
`connect()` calls and `sleep(reconnectInterval)` delays performed by the
reconnect loop. -/

inductive Notif where
  | connectedN | disconnectedN | reconnectedN | reconnectFailedN | errorN
deriving DecidableEq

structure ClientState where
  connected : Bool
  reconnecting : Bool
  reconnectAttempts : Nat
  subscriptionOpen : Bool
  clientOpen : Bool
  notifs : List Notif
  connectCalls : Nat
  sleeps : Nat
deriving DecidableEq

/-- The constructor's config normalization
`maxReconnectAttempts: config.maxReconnectAttempts || -1`: an absent — or
falsy, hence also `0` — value becomes `-1` (infinite). -/
def normalizeMaxAttempts : Option Int → Int
  | none => -1
  | some v => if v = 0 then -1 else v

/-- `disconnect()`: cancel and drop any subscription stream, close the
transport, set `connected = false`, emit `'disconnected'`.  (It does not touch
`reconnecting` or `reconnectAttempts`.) -/
def ConnectomeClient.disconnect (s : ClientState) : ClientState :=
  { s with
      subscriptionOpen := false
      clientOpen := false
      connected := false
      notifs := s.notifs ++ [.disconnectedN] }

/-- The synchronous body of `handleDisconnect()` before `attemptReconnect()`
runs: bail out if already reconnecting, otherwise clear `connected`, set
`reconnecting`, emit `'disconnected'`. -/
def handleDisconnectEnter (s : ClientState) : ClientState :=
  if s.reconnecting then s
  else
    { s with
        connected := false
        reconnecting := true
        notifs := s.notifs ++ [.disconnectedN] }

/-- `grpc.status.CANCELLED`. -/
def statusCancelled : Nat := 1

/-- The subscription stream `'error'` handler in `subscribe()`: a `CANCELLED`
error is ignored entirely; any other error emits `'error'` and invokes
`handleDisconnect()` (whose loop is modelled separately by
`attemptReconnectFail`). -/
def onStreamError (s : ClientState) (code : Nat) : ClientState :=
  if code = statusCancelled then s
  else handleDisconnectEnter { s with notifs := s.notifs ++ [.errorN] }

/-- The `attemptReconnect()` loop under a transport whose `connect()` always
fails, unrolled for `fuel` iterations.  Each iteration re-checks
`reconnecting`, stops with a single `'reconnect_failed'` once a non-negative
budget is exhausted, and otherwise increments the attempt counter, calls
`connect()` (which fails) and sleeps one reconnect interval.  The boolean is
`true` when the loop exited within the given fuel and `false` when it is still
running. -/
def attemptReconnectFail (maxAttempts : Int) : Nat → ClientState → ClientState × Bool
  | 0, s => (s, false)
  | fuel + 1, s =>
    if s.reconnecting = false then (s, true)
    else if 0 ≤ maxAttempts ∧ maxAttempts ≤ (s.reconnectAttempts : Int) then
      ({ s with
          reconnecting := false
          notifs := s.notifs ++ [.reconnectFailedN] }, true)
    else
      attemptReconnectFail maxAttempts fuel
        { s with
            reconnectAttempts := s.reconnectAttempts + 1
            connectCalls := s.connectCalls + 1
            sleeps := s.sleeps + 1 }

/-! ## Supporting lemmas -/

theorem lookupKV_setKV_self (m : List (String × String)) (k v : String) :
    lookupKV (setKV m k v) k = some v := by
  induction m with
  | nil => simp [setKV, lookupKV]
  | cons kv0 rest ih =>
    obtain ⟨k0, v0⟩ := kv0
    by_cases h : k0 = k
    · simp [setKV, lookupKV, h]
    · simp [setKV, lookupKV, h, ih]

theorem lookupKV_setKV_ne (m : List (String × String)) (k k' v : String)
    (h : k' ≠ k) : lookupKV (setKV m k' v) k = lookupKV m k := by
  induction m with
  | nil => simp [setKV, lookupKV, h]
  | cons kv0 rest ih =>
    obtain ⟨k0, v0⟩ := kv0
    by_cases h0 : k0 = k'
    · subst h0
      simp [setKV, lookupKV, h]
    · by_cases h1 : k0 = k
      · subst h1
        have hkk : ¬ (k0 = k') := h0
        have hkk2 : ¬ (k0 = k') := fun hh => h0 hh
        simp [setKV, lookupKV, h0]
      · simp [setKV, lookupKV, h0, h1, ih]

theorem assembleChunks_flatten (chunks : List (List Nat)) :
    assembleChunks chunks = chunks.flatten := by
  have aux : ∀ (l : List (List Nat)) (acc : List Nat),
      l.foldl (fun a c => a ++ c) acc = acc ++ l.flatten := by
    intro l
    induction l with
    | nil => simp
    | cons c cs ih => intro acc; simp [List.foldl_cons, ih]
  simpa [assembleChunks] using aux chunks []

/-! ### Attachment faithfulness and round trip -/

/-- The attachment states whose wire form loses nothing: a non-default
content type, no `mimeType` (the decoder never reconstructs one), a present
filename (the decoder always materializes one), either non-empty inline bytes
with `sizeBytes` matching (the encoder recomputes it) and no URL, or a
non-empty URL with `sizeBytes` present; metadata, when present, non-empty with
entry-codec-safe values. -/
def FaithfulAttachment (a : ConnAttachment) : Bool :=
  (a.contentType != "") &&
  a.mimeType.isNone &&
  a.filename.isSome &&
  (match a.data, a.url with
    | some b, none => (!b.isEmpty) && (a.sizeBytes == some b.length)
    | none, some u => (u != "") && a.sizeBytes.isSome
    | _, _ => false) &&
  (match a.metadata with
    | none => true
    | some m => (!m.isEmpty) && m.all (fun kv => metaValSafe kv.2))

theorem attachment_roundtrip (a : ConnAttachment)
    (h : FaithfulAttachment a = true) :
    protoToAttachment (attachmentToProto a) = a := by
  obtain ⟨id, ct, data, url, sb, fn, mt, md⟩ := a
  simp only [FaithfulAttachment] at h
  obtain ⟨⟨⟨⟨hct, hmt⟩, hfn⟩, hdu⟩, hmd⟩ := by
    simpa [Bool.and_eq_true] using h
  have hct' : ct ≠ "" := by simpa using hct
  have hmt' : mt = none := by simpa [Option.isNone_iff_eq_none] using hmt
  obtain ⟨f, hf⟩ : ∃ f, fn = some f := by
    cases fn with
    | none => simp at hfn
    | some f => exact ⟨f, rfl⟩
  have hmdec :
      (match (match md with
        | none => ([] : List (String × String))
        | some m => m.map encodeMetaEntry) with
        | [] => none
        | m => some (m.map decodeMetaEntry)) = md := by
    cases md with
    | none => rfl
    | some m =>
      simp only at hmd
      obtain ⟨hm1, hm2⟩ := by simpa [Bool.and_eq_true] using hmd
      cases m with
      | nil => simp at hm1
      | cons kv rest =>
        simp only [List.map_cons, Option.some.injEq, List.cons.injEq]
        refine ⟨decodeMetaEntry_encodeMetaEntry kv (hm2 kv.1 kv.2 (by simp)), ?_⟩
        exact metaMap_roundtrip rest
          (fun kv' hkv' => hm2 kv'.1 kv'.2 (by simpa using List.mem_cons_of_mem kv hkv'))
  subst hmt' hf
  cases data with
  | some b =>
    cases url with
    | some u => simp at hdu
    | none =>
      obtain ⟨hb, hsb⟩ := by simpa [Bool.and_eq_true] using hdu
      have hb' : b ≠ [] := by simpa [List.isEmpty_iff] using hb
      have hsb' : sb = some b.length := by simpa using hsb
      subst hsb'
      simp only [attachmentToProto, protoToAttachment, hct', if_pos, ne_eq,
        not_false_iff, Option.getD_some]
      simp [hb', hmdec, if_neg hct']
  | none =>
    cases url with
    | none => simp at hdu
    | some u =>
      obtain ⟨hu, hsb⟩ := by simpa [Bool.and_eq_true] using hdu
      have hu' : u ≠ "" := by simpa using hu
      obtain ⟨n, hn⟩ : ∃ n, sb = some n := by
        cases sb with
        | none => simp at hsb
        | some n => exact ⟨n, rfl⟩
      subst hn
      simp only [attachmentToProto, protoToAttachment]
      simp [hu', hmdec, if_neg hct']

/-! ### Facet faithfulness and round trip -/

def optStrFaithful : Option String → Bool
  | none => true
  | some s => s != ""

def optListStrFaithful : Option (List String) → Bool
  | none => true
  | some l => !l.isEmpty

theorem attachList_roundtrip (l : List ConnAttachment)
    (h : l.all FaithfulAttachment = true) :
    (l.map attachmentToProto).map protoToAttachment = l := by
  induction l with
  | nil => rfl
  | cons a rest ih =>
    simp only [List.all_cons, Bool.and_eq_true] at h
    simp only [List.map_cons, List.cons.injEq]
    exact ⟨attachment_roundtrip a h.1, ih h.2⟩

theorem facetsToProtoList_ne_nil (l : List Facet) (h : l ≠ []) :
    facetsToProtoList l ≠ [] := by
  cases l with
  | nil => exact absurd rfl h
  | cons f fs => simp [facetsToProtoList]

mutual
/-- The facet states whose wire form loses nothing: populated string aspects
are non-empty, populated collections are non-empty, `ephemeral` is only
populated as `true`, attribute values survive the raw-string/JSON entry codec,
attachments are faithful, and children recursively so (with the presence flag
canonical: absent children carry an empty list). -/
def FaithfulFacet : Facet → Bool
  | .mk _ _ content _ tags aId aName sId sTy scopes eph chp children attrs atts =>
    optStrFaithful content && optStrFaithful aId && optStrFaithful aName &&
    optStrFaithful sId && optStrFaithful sTy &&
    optListStrFaithful tags && optListStrFaithful scopes &&
    (match eph with
      | none => true
      | some b => b) &&
    (match chp with
      | false => children.isEmpty
      | true => (!children.isEmpty) && FaithfulFacetList children) &&
    (match attrs with
      | none => true
      | some m => (!m.isEmpty) && m.all (fun kv => metaValSafe kv.2)) &&
    (match atts with
      | none => true
      | some l => (!l.isEmpty) && l.all FaithfulAttachment)
termination_by structural f => f

def FaithfulFacetList : List Facet → Bool
  | [] => true
  | f :: fs => FaithfulFacet f && FaithfulFacetList fs
termination_by structural l => l
end

theorem facetToProto_mk (id ty : String) (content : Option String) (state : Option Json)
    (tags : Option (List String)) (aId aName sId sTy : Option String)
    (scopes : Option (List String)) (eph : Option Bool) (chp : Bool)
    (children : List Facet) (attrs : Option (List (String × Json)))
    (atts : Option (List ConnAttachment)) :
    facetToProto (.mk id ty content state tags aId aName sId sTy scopes eph
        chp children attrs atts) = PFacet.mk id ty
      (match state with
        | none => ""
        | some s => jsonStringify s)
      (content.getD "")
      (tags.getD [])
      (aId.getD "") (aName.getD "") (sId.getD "") (sTy.getD "")
      (scopes.getD [])
      (eph.getD false)
      (match chp with
        | false => []
        | true => facetsToProtoList children)
      ((match attrs with
        | none => []
        | some m => m).map encodeMetaEntry)
      ((match atts with
        | none => []
        | some l => l).map attachmentToProto) := rfl

theorem protoToFacet_mk (id ty stateJson content : String) (tags : List String)
    (aId aName sId sTy : String) (scopes : List String) (eph : Bool)
    (children : List PFacet) (attrs : List (String × String))
    (atts : List PAttachment) :
    protoToFacet (PFacet.mk id ty stateJson content tags aId aName sId sTy scopes eph
        children attrs atts) = Facet.mk id ty
      (if content ≠ "" then some content else none)
      (if stateJson ≠ "" then
        some (match jsonParse stateJson with
          | some v => v
          | none => .obj [])
       else none)
      (if tags ≠ [] then some tags else none)
      (if aId ≠ "" then some aId else none)
      (if aName ≠ "" then some aName else none)
      (if sId ≠ "" then some sId else none)
      (if sTy ≠ "" then some sTy else none)
      (if scopes ≠ [] then some scopes else none)
      (if eph then some true else none)
      (match children with
        | [] => false
        | _ => true)
      (match children with
        | [] => []
        | cs => protosToFacetList cs)
      (match attrs with
        | [] => none
        | m => some (m.map decodeMetaEntry))
      (match atts with
        | [] => none
        | l => some (l.map protoToAttachment)) := by
  cases children with
  | nil => rfl
  | cons c cs => rfl

theorem facet_roundtrip_master : ∀ n : Nat,
    (∀ f : Facet, sizeOf f ≤ n → FaithfulFacet f = true →
      protoToFacet (facetToProto f) = f) ∧
    (∀ l : List Facet, sizeOf l ≤ n → FaithfulFacetList l = true →
      protosToFacetList (facetsToProtoList l) = l) := by
  intro n
  induction n using Nat.strong_induction_on with
  | _ n IH =>
  constructor
  · intro f hsz h
    obtain ⟨id, ty, content, state, tags, aId, aName, sId, sTy, scopes, eph,
      chp, children, attrs, atts⟩ := f
    simp only [Facet.mk.sizeOf_spec] at hsz
    simp only [FaithfulFacet, Bool.and_eq_true] at h
    obtain ⟨⟨⟨⟨⟨⟨⟨⟨⟨⟨hcontent, haId⟩, haName⟩, hsId⟩, hsTy⟩, htags⟩, hscopes⟩,
      heph⟩, hchildren⟩, hattrs⟩, hatts⟩ := h
    rw [facetToProto_mk, protoToFacet_mk]
    simp only [Facet.mk.injEq]
    refine ⟨trivial, trivial, ?_, ?_, ?_, ?_, ?_, ?_, ?_, ?_, ?_, ?_, ?_, ?_, ?_⟩
    · -- content
      cases content with
      | none => simp
      | some c =>
        have : c ≠ "" := by simpa [optStrFaithful] using hcontent
        simp [this]
    · -- state
      cases state with
      | none => simp
      | some v =>
        have := jsonStringify_ne_empty v
        simp [this, jsonParse_stringify]
    · -- tags
      cases tags with
      | none => simp
      | some l =>
        have : l ≠ [] := by simpa [optListStrFaithful, List.isEmpty_iff] using htags
        simp [this]
    · -- agentId
      cases aId with
      | none => simp
      | some s =>
        have : s ≠ "" := by simpa [optStrFaithful] using haId
        simp [this]
    · -- agentName
      cases aName with
      | none => simp
      | some s =>
        have : s ≠ "" := by simpa [optStrFaithful] using haName
        simp [this]
    · -- streamId
      cases sId with
      | none => simp
      | some s =>
        have : s ≠ "" := by simpa [optStrFaithful] using hsId
        simp [this]
    · -- streamType
      cases sTy with
      | none => simp
      | some s =>
        have : s ≠ "" := by simpa [optStrFaithful] using hsTy
        simp [this]
    · -- scopes
      cases scopes with
      | none => simp
      | some l =>
        have : l ≠ [] := by simpa [optListStrFaithful, List.isEmpty_iff] using hscopes
        simp [this]
    · -- ephemeral
      cases eph with
      | none => simp
      | some b =>
        have : b = true := by simpa using heph
        subst this
        simp
    · -- children presence flag
      cases chp with
      | false =>
        have : children = [] := by simpa [List.isEmpty_iff] using hchildren
        simp [this]
      | true =>
        obtain ⟨hcs1, hcs2⟩ := by simpa [Bool.and_eq_true] using hchildren
        have hne : children ≠ [] := by simpa [List.isEmpty_iff] using hcs1
        obtain ⟨p, ps, hps⟩ : ∃ p ps, facetsToProtoList children = p :: ps := by
          cases hfp : facetsToProtoList children with
          | nil => exact absurd hfp (facetsToProtoList_ne_nil children hne)
          | cons p ps => exact ⟨p, ps, rfl⟩
        simp [hps]
    · -- children
      cases chp with
      | false =>
        have : children = [] := by simpa [List.isEmpty_iff] using hchildren
        simp [this]
      | true =>
        obtain ⟨hcs1, hcs2⟩ := by simpa [Bool.and_eq_true] using hchildren
        have hne : children ≠ [] := by simpa [List.isEmpty_iff] using hcs1
        obtain ⟨p, ps, hps⟩ : ∃ p ps, facetsToProtoList children = p :: ps := by
          cases hfp : facetsToProtoList children with
          | nil => exact absurd hfp (facetsToProtoList_ne_nil children hne)
          | cons p ps => exact ⟨p, ps, rfl⟩
        simp only [hps]
        rw [← hps]
        exact (IH (n - 1) (by omega)).2 children (by omega) hcs2
    · -- attributes
      cases attrs with
      | none => simp
      | some m =>
        simp only at hattrs
        obtain ⟨hm1, hm2⟩ := by simpa [Bool.and_eq_true] using hattrs
        cases m with
        | nil => simp at hm1
        | cons kv rest =>
          simp only [List.map_cons, Option.some.injEq, List.cons.injEq]
          refine ⟨decodeMetaEntry_encodeMetaEntry kv (hm2 kv.1 kv.2 (by simp)), ?_⟩
          exact metaMap_roundtrip rest
            (fun kv' hkv' => hm2 kv'.1 kv'.2 (by simpa using List.mem_cons_of_mem kv hkv'))
    · -- attachments
      cases atts with
      | none => simp
      | some l =>
        simp only at hatts
        obtain ⟨hl1, hl2⟩ := by simpa [Bool.and_eq_true] using hatts
        cases l with
        | nil => simp at hl1
        | cons a rest =>
          simp only [List.map_cons, Option.some.injEq, List.cons.injEq]
          have hall : (a :: rest).all FaithfulAttachment = true := by
            simp only [List.all_eq_true]
            intro x hx
            exact hl2 x hx
          have := attachList_roundtrip (a :: rest) hall
          simpa using this
  · intro l hsz h
    cases l with
    | nil => rfl
    | cons f fs =>
      simp only [List.cons.sizeOf_spec] at hsz
      simp only [FaithfulFacetList, Bool.and_eq_true] at h
      simp only [facetsToProtoList, protosToFacetList, List.cons.injEq]
      refine ⟨(IH (n - 1) (by omega)).1 f (by omega) h.1,
        (IH (n - 1) (by omega)).2 fs (by omega) h.2⟩

theorem facet_roundtrip_aux (f : Facet) (h : FaithfulFacet f = true) :
    protoToFacet (facetToProto f) = f :=
  (facet_roundtrip_master (sizeOf f)).1 f (le_refl _) h


/-! ## Supporting lemma: the failing reconnect loop, run to completion -/

theorem arf_run (N : Nat) : ∀ (fuel : Nat) (s : ClientState),
    s.reconnecting = true → s.reconnectAttempts ≤ N →
    N - s.reconnectAttempts < fuel →
    attemptReconnectFail (N : Int) fuel s =
      ({ s with
          reconnecting := false
          reconnectAttempts := N
          connectCalls := s.connectCalls + (N - s.reconnectAttempts)
          sleeps := s.sleeps + (N - s.reconnectAttempts)
          notifs := s.notifs ++ [Notif.reconnectFailedN] }, true) := by
  intro fuel
  induction fuel with
  | zero => intro s _ _ hf; omega
  | succ f ih =>
    intro s hrec hle hf
    obtain ⟨c, r, ra, so, co, nf, cc, sl⟩ := s
    simp only at hrec hle hf ⊢
    subst hrec
    by_cases heq : ra = N
    · subst heq
      simp only [attemptReconnectFail]
      rw [if_neg (by simp), if_pos (by constructor <;> omega)]
      simp
    · have hlt : ra < N := by omega
      simp only [attemptReconnectFail]
      rw [if_neg (by simp), if_neg (by omega)]
      have := ih {
          connected := c
          reconnecting := true
          reconnectAttempts := ra + 1
          subscriptionOpen := so
          clientOpen := co
          notifs := nf
          connectCalls := cc + 1
          sleeps := sl + 1 } rfl (by simp; omega) (by simp; omega)
      simp only at this
      rw [this]
      have h1 : cc + 1 + (N - (ra + 1)) = cc + (N - ra) := by omega
      have h2 : sl + 1 + (N - (ra + 1)) = sl + (N - ra) := by omega
      rw [h1, h2]

/-! ## The claims -/

/-- Claim C1, as written, is refuted by a facet whose optional `content`
aspect is populated with the empty string: the round trip returns it absent
(`undefined`), not observationally equal. -/
theorem C1_counterexample :
    Facet.contentOf (Facet.mk "f" "t" (some "") none none none none none none
      none none false [] none none) = some "" ∧
    Facet.contentOf (protoToFacet (facetToProto (Facet.mk "f" "t" (some "")
      none none none none none none none none false [] none none))) = none :=
  ⟨rfl, rfl⟩

/-- Claim C1 (amended): for every faithful facet — populated string aspects
non-empty, populated collections non-empty, `ephemeral` only populated as
`true`, attribute values safe for the raw-string/JSON entry codec, attachments
faithful, and children recursively so — the wire round trip
`protoToFacet (facetToProto f)` reproduces the facet exactly, populated and
absent aspects alike, at every nesting depth. -/
theorem C1_facet_roundtrip (f : Facet) (h : FaithfulFacet f = true) :
    protoToFacet (facetToProto f) = f :=
  facet_roundtrip_aux f h

/-- Witness for C1: a concrete two-level faithful facet (populated content,
state, tags, ephemeral, one child, attributes, one inline attachment)
round-trips to itself. -/
theorem C1_witness :
    FaithfulFacet (Facet.mk "root" "text" (some "hello") (some (Json.num 5))
      (some ["x"]) none none none none none (some true) true
      [Facet.mk "child" "note" (some "c") none none none none none none none
        none false [] none none]
      (some [("k", Json.num 1)])
      (some [ConnAttachment.mk "a1" "text/plain" (some [1, 2, 3]) none (some 3)
        (some "f.bin") none none])) = true ∧
    protoToFacet (facetToProto (Facet.mk "root" "text" (some "hello")
      (some (Json.num 5)) (some ["x"]) none none none none none (some true) true
      [Facet.mk "child" "note" (some "c") none none none none none none none
        none false [] none none]
      (some [("k", Json.num 1)])
      (some [ConnAttachment.mk "a1" "text/plain" (some [1, 2, 3]) none (some 3)
        (some "f.bin") none none]))) =
      Facet.mk "root" "text" (some "hello") (some (Json.num 5)) (some ["x"])
        none none none none none (some true) true
        [Facet.mk "child" "note" (some "c") none none none none none none none
          none false [] none none]
        (some [("k", Json.num 1)])
        (some [ConnAttachment.mk "a1" "text/plain" (some [1, 2, 3]) none (some 3)
          (some "f.bin") none none]) :=
  ⟨by decide, C1_facet_roundtrip _ (by decide)⟩

/-- Claim C2: the payload of `protoToEvent (eventToProto e)` equals `e`'s
payload for every event — a present payload (any modelled JSON value)
round-trips intact through the byte field, and an absent payload stays
absent rather than becoming `\x7b\x7d`. -/
theorem C2_payload_roundtrip (e : SpaceEvent) :
    (protoToEvent (eventToProto e)).payload = e.payload := by
  cases hp : e.payload with
  | none => simp [protoToEvent, eventToProto, hp]
  | some p =>
    have hne := jsonStringify_ne_empty p
    simp [protoToEvent, eventToProto, hp, hne, jsonParse_stringify]

/-- Claim C3, as written, is refuted: `disconnect()` does not clear the
`reconnecting` flag — from a state with an active reconnect loop the flag
survives the call. -/
theorem C3_counterexample :
    (ConnectomeClient.disconnect
      {
        connected := true
        reconnecting := true
        reconnectAttempts := 2
        subscriptionOpen := true
        clientOpen := true
        notifs := []
        connectCalls := 0
        sleeps := 0 }).reconnecting = true := rfl

/-- Claim C3 (amended): `disconnect()` cancels the subscription stream, closes
the transport, clears `connected` and emits exactly one `'disconnected'` — but
it leaves `reconnecting` (and hence a concurrently running reconnect loop)
untouched. -/
theorem C3_disconnect (s : ClientState) :
    (ConnectomeClient.disconnect s).subscriptionOpen = false ∧
    (ConnectomeClient.disconnect s).clientOpen = false ∧
    (ConnectomeClient.disconnect s).connected = false ∧
    (ConnectomeClient.disconnect s).notifs = s.notifs ++ [Notif.disconnectedN] ∧
    (ConnectomeClient.disconnect s).reconnecting = s.reconnecting :=
  ⟨rfl, rfl, rfl, rfl, rfl⟩

/-- Claim C4, as written (budget `N ≥ 0`), is refuted at `N = 0`: the
constructor's `config.maxReconnectAttempts || -1` coerces `0` to `-1`
(infinite), so instead of zero connect attempts and one `'reconnect_failed'`,
the loop keeps attempting — after five iterations it has made five connect
calls, emitted nothing, and is still running. -/
theorem C4_counterexample :
    normalizeMaxAttempts (some 0) = -1 ∧
    attemptReconnectFail (normalizeMaxAttempts (some 0)) 5
      {
        connected := false
        reconnecting := true
        reconnectAttempts := 0
        subscriptionOpen := false
        clientOpen := false
        notifs := []
        connectCalls := 0
        sleeps := 0 } =
      ({
        connected := false
        reconnecting := true
        reconnectAttempts := 5
        subscriptionOpen := false
        clientOpen := false
        notifs := []
        connectCalls := 5
        sleeps := 5 }, false) := by decide

/-- Claim C4 (amended to a positive budget `N ≥ 1`): under an always-failing
transport, a reconnect loop entered with a fresh attempt counter performs
exactly `N` connect calls, sleeps the configured interval after each, then
emits exactly one `'reconnect_failed'`, clears `reconnecting` and stops. -/
theorem C4_reconnect_budget (N : Nat) (hN : 1 ≤ N) (fuel : Nat) (s : ClientState)
    (hrec : s.reconnecting = true) (h0 : s.reconnectAttempts = 0)
    (hfuel : N < fuel) :
    attemptReconnectFail (normalizeMaxAttempts (some (N : Int))) fuel s =
      ({ s with
          reconnecting := false
          reconnectAttempts := N
          connectCalls := s.connectCalls + N
          sleeps := s.sleeps + N
          notifs := s.notifs ++ [Notif.reconnectFailedN] }, true) := by
  have hnorm : normalizeMaxAttempts (some (N : Int)) = (N : Int) := by
    simp only [normalizeMaxAttempts]
    rw [if_neg (by omega)]
  rw [hnorm]
  have h := arf_run N fuel s hrec (by omega) (by omega)
  rw [h, h0]
  simp

/-- Witness for C4: budget 2, fuel 3, a fresh reconnecting state — two connect
calls, two sleeps, one `'reconnect_failed'`, loop stopped. -/
theorem C4_witness :
    attemptReconnectFail (normalizeMaxAttempts (some ((2 : Nat) : Int))) 3
      {
        connected := false
        reconnecting := true
        reconnectAttempts := 0
        subscriptionOpen := false
        clientOpen := false
        notifs := []
        connectCalls := 0
        sleeps := 0 } =
      ({
        connected := false
        reconnecting := false
        reconnectAttempts := 2
        subscriptionOpen := false
        clientOpen := false
        notifs := [Notif.reconnectFailedN]
        connectCalls := 2
        sleeps := 2 }, true) := by
  have h := C4_reconnect_budget 2 (by decide) 3
    {
        connected := false
        reconnecting := true
        reconnectAttempts := 0
        subscriptionOpen := false
        clientOpen := false
        notifs := []
        connectCalls := 0
        sleeps := 0 } rfl rfl (by decide)
  simpa using h

/-- Claim C5, as written, is refuted: `assembleChunks` takes no separately
known expected size and never rejects — where the spec's reassembly
(`specAssembleChunks`, expected size 5 against 2 bytes of chunks) rejects,
the code still returns the concatenation. -/
theorem C5_counterexample :
    assembleChunks [[1, 2]] = [1, 2] ∧ specAssembleChunks 5 [[1, 2]] = none := by
  decide

/-- Claim C5 (amended): `assembleChunks` concatenates the chunks in received
order — it is total, returns `chunks.flatten`, and has no expected-size
parameter and no rejection path. -/
theorem C5_assemble (chunks : List (List Nat)) :
    assembleChunks chunks = chunks.flatten :=
  assembleChunks_flatten chunks

set_option maxRecDepth 100000 in
/-- Claim C6: the code's comment promises the exact 32-bit FNV-1a step, but
`hash * 16777619` runs in Float64 and rounds away low bits once the product
exceeds 53 bits: already on the single byte `0x00` the code yields
`"050c5d20"` where the specified arithmetic gives `"050c5d1f"`.  The
self-consistency half does hold: `verifyChecksum B (calculateChecksum B)` is
always true. -/
theorem C6_checksum_divergence :
    calculateChecksum [0] = "050c5d20" ∧
    specChecksum [0] = "050c5d1f" ∧
    (calculateChecksum [0] == specChecksum [0]) = false ∧
    (∀ data : List Nat, verifyChecksum data (calculateChecksum data) = true) := by
  refine ⟨by decide, by decide, by decide, fun data => ?_⟩
  simp [verifyChecksum]

/-- Claim C7: a payload of exactly `MAX_INLINE_SIZE` bytes is inlined as
`inlineData`; one byte more is not embedded and instead carries metadata
`requiresUpload = "true"` and `originalSize` equal to its exact byte length. -/
theorem C7_inline_boundary (id ct : String) (fn : Option String)
    (md : Option (List (String × String))) (d1 d2 : List Nat)
    (h1 : d1.length = MAX_INLINE_SIZE) (h2 : d2.length = MAX_INLINE_SIZE + 1) :
    (createAttachment id d1 ct fn md).inlineData = some d1 ∧
    (createAttachment id d2 ct fn md).inlineData = none ∧
    lookupKV (createAttachment id d2 ct fn md).metadata "requiresUpload"
      = some "true" ∧
    lookupKV (createAttachment id d2 ct fn md).metadata "originalSize"
      = some (natToString d2.length) := by
  have hin : shouldInlineAttachment d1.length = true := by
    simp [shouldInlineAttachment, h1]
  have hout : shouldInlineAttachment d2.length = false := by
    simp [shouldInlineAttachment, h2, MAX_INLINE_SIZE]
  refine ⟨?_, ?_, ?_, ?_⟩
  · simp [createAttachment, hin]
  · simp [createAttachment, hout]
  · simp only [createAttachment, hout, Bool.false_eq_true, if_false]
    rw [lookupKV_setKV_ne _ _ _ _ (by decide)]
    exact lookupKV_setKV_self _ _ _
  · simp only [createAttachment, hout, Bool.false_eq_true, if_false]
    exact lookupKV_setKV_self _ _ _

/-- Witness for C7: one-megabyte and one-megabyte-plus-one zero payloads at
the boundary. -/
theorem C7_witness :
    (List.replicate MAX_INLINE_SIZE 0).length = MAX_INLINE_SIZE ∧
    (List.replicate (MAX_INLINE_SIZE + 1) 0).length = MAX_INLINE_SIZE + 1 ∧
    ((createAttachment "a1" (List.replicate MAX_INLINE_SIZE 0)
        "application/octet-stream" none none).inlineData
      = some (List.replicate MAX_INLINE_SIZE 0) ∧
    (createAttachment "a1" (List.replicate (MAX_INLINE_SIZE + 1) 0)
        "application/octet-stream" none none).inlineData = none ∧
    lookupKV (createAttachment "a1" (List.replicate (MAX_INLINE_SIZE + 1) 0)
        "application/octet-stream" none none).metadata "requiresUpload"
      = some "true" ∧
    lookupKV (createAttachment "a1" (List.replicate (MAX_INLINE_SIZE + 1) 0)
        "application/octet-stream" none none).metadata "originalSize"
      = some (natToString (List.replicate (MAX_INLINE_SIZE + 1) 0).length)) :=
  ⟨by simp, by simp,
    C7_inline_boundary "a1" "application/octet-stream" none none _ _
      (by simp) (by simp)⟩

/-- Claim C8, as written, is refuted: a metadata value that is the plain
string `"true"` is stored raw on the wire, and decoding runs `JSON.parse`
first — the value comes back as the boolean `true`, not the string. -/
theorem C8_counterexample :
    (protoToEvent (eventToProto
      {
        topic := "t"
        source := { componentId := "c", componentPath := none, componentType := none }
        payload := none
        timestamp := 0
        priority := none
        sync := none
        metadata := some [("k", Json.str "true")] })).metadata
      = some [("k", Json.bool true)] := rfl

/-- Claim C8 (amended): for every event whose metadata map is present,
non-empty, and whose values survive the raw-string/JSON entry codec
(`metaValSafe`: non-strings, and strings `JSON.parse` rejects), the decoded
event's metadata deep-equals the original. -/
theorem C8_metadata_roundtrip (e : SpaceEvent) (m : List (String × Json))
    (hm : e.metadata = some m) (hne : m.isEmpty = false)
    (hsafe : m.all (fun kv => metaValSafe kv.2) = true) :
    (protoToEvent (eventToProto e)).metadata = some m := by
  cases m with
  | nil => simp at hne
  | cons kv rest =>
    have hsafe' : ∀ kv' ∈ kv :: rest, metaValSafe kv'.2 = true := by
      simpa [List.all_eq_true] using hsafe
    have hrt := metaMap_roundtrip (kv :: rest) hsafe'
    simp only [protoToEvent, eventToProto, hm, List.map_cons] at hrt ⊢
    rw [hrt]

/-- Witness for C8: a metadata map holding an unparseable plain string and a
number survives the round trip. -/
theorem C8_witness :
    (({
        topic := "t"
        source := { componentId := "c", componentPath := none, componentType := none }
        payload := none
        timestamp := 0
        priority := none
        sync := none
        metadata := some [("a", Json.str "plain text"), ("b", Json.num 7)] } : SpaceEvent).metadata
      = some [("a", Json.str "plain text"), ("b", Json.num 7)]) ∧
    ([("a", Json.str "plain text"), ("b", Json.num 7)]
      : List (String × Json)).isEmpty = false ∧
    ([("a", Json.str "plain text"), ("b", Json.num 7)].all
      (fun kv => metaValSafe kv.2) = true) ∧
    (protoToEvent (eventToProto
      {
        topic := "t"
        source := { componentId := "c", componentPath := none, componentType := none }
        payload := none
        timestamp := 0
        priority := none
        sync := none
        metadata := some [("a", Json.str "plain text"), ("b", Json.num 7)] })).metadata
      = some [("a", Json.str "plain text"), ("b", Json.num 7)] :=
  ⟨rfl, rfl, by decide,
    C8_metadata_roundtrip _ [("a", Json.str "plain text"), ("b", Json.num 7)]
      rfl rfl (by decide)⟩

/-- Claim C9: `'normal'` is the wire default-zero value — an omitted priority
encodes to wire ordinal 0 and wire 0 decodes to `'normal'`, with
`'immediate'` at 3 and `'high'` at 2 in both directions. -/
theorem C9_priority_wire :
    (∀ e : SpaceEvent, e.priority = none → (eventToProto e).priority = 0) ∧
    protoToPriority 0 = Priority.normal ∧
    priorityToProto (some Priority.immediate) = 3 ∧
    protoToPriority 3 = Priority.immediate ∧
    priorityToProto (some Priority.high) = 2 ∧
    protoToPriority 2 = Priority.high := by
  refine ⟨?_, rfl, rfl, rfl, rfl, rfl⟩
  intro e he
  simp [eventToProto, priorityToProto, he]

/-- Witness for C9: a concrete event with omitted priority encodes to wire
priority 0. -/
theorem C9_witness :
    (eventToProto
      {
        topic := "t"
        source := { componentId := "c", componentPath := none, componentType := none }
        payload := none
        timestamp := 0
        priority := none
        sync := none
        metadata := none }).priority = 0 :=
  C9_priority_wire.1
    {
        topic := "t"
        source := { componentId := "c", componentPath := none, componentType := none }
        payload := none
        timestamp := 0
        priority := none
        sync := none
        metadata := none } rfl

/-- Claim C10: a `CANCELLED` subscription-stream error is silent — the state
is untouched, no notification, no reconnect; any other code appends exactly
one `'error'` notification and then the disconnect path engages (`connected`
cleared, `reconnecting` set, `'disconnected'` emitted). -/
theorem C10_stream_error (s : ClientState) (code : Nat)
    (hcode : code ≠ statusCancelled) (hrec : s.reconnecting = false) :
    onStreamError s statusCancelled = s ∧
    onStreamError s code =
      { s with
          connected := false
          reconnecting := true
          notifs := s.notifs ++ [Notif.errorN, Notif.disconnectedN] } := by
  obtain ⟨c, r, ra, so, co, nf, cc, sl⟩ := s
  simp only at hrec
  subst hrec
  constructor
  · simp [onStreamError]
  · simp [onStreamError, hcode, handleDisconnectEnter]

/-- Witness for C10: from an idle connected state, error code 1 (`CANCELLED`)
is silent and error code 14 (`UNAVAILABLE`) surfaces one `'error'` and engages
the disconnect path. -/
theorem C10_witness :
    onStreamError
      {
        connected := true
        reconnecting := false
        reconnectAttempts := 0
        subscriptionOpen := true
        clientOpen := true
        notifs := []
        connectCalls := 0
        sleeps := 0 } statusCancelled =
      {
        connected := true
        reconnecting := false
        reconnectAttempts := 0
        subscriptionOpen := true
        clientOpen := true
        notifs := []
        connectCalls := 0
        sleeps := 0 } ∧
    onStreamError
      {
        connected := true
        reconnecting := false
        reconnectAttempts := 0
        subscriptionOpen := true
        clientOpen := true
        notifs := []
        connectCalls := 0
        sleeps := 0 } 14 =
      {
        connected := false
        reconnecting := true
        reconnectAttempts := 0
        subscriptionOpen := true
        clientOpen := true
        notifs := [Notif.errorN, Notif.disconnectedN]
        connectCalls := 0
        sleeps := 0 } := by
  exact C10_stream_error
    {
        connected := true
        reconnecting := false
        reconnectAttempts := 0
        subscriptionOpen := true
        clientOpen := true
        notifs := []
        connectCalls := 0
        sleeps := 0 } 14 (by decide) rfl

end Connectome
